import Mathlib

/-!
# SheetsApi.js: the table helpers of `src/js/SheetsApi.js`

A shallow embedding of the pure part of `SheetsApi`: the select / insert /
update helpers that reshape the 2D array of a sheet.  The calls to `gapi`
are not modelled; a function that ends in such a call is modelled by the
request object it hands over.

Conventions.
* A JavaScript string is the list of its UTF-16 code units.
* An array is a list of cells; a cell is `none` where reading it yields
  `undefined` (a hole or an element that is `undefined`), and reading past
  the end yields `undefined` as well.
* A function that may throw returns `Except JSError _`.
* Arrays that the source mutates in place are passed and returned
  explicitly: the returned array is also the final content of the argument.
-/

set_option autoImplicit false

namespace SheetsApi

/-! ## Values -/

/-- A JavaScript string, as its sequence of UTF-16 code units. -/
abbrev JSString := List Nat

/-- Code units of a literal whose characters all lie in the Basic Multilingual Plane. -/
def js (s : String) : JSString := s.toList.map Char.toNat

/-- What an array read `a[i]` yields: a string, or `none` for `undefined`. -/
abbrev Cell := Option JSString

/-- One row of a sheet (an array of cells). -/
abbrev Row := List Cell

/-- The 2D array `response.result.values`: row 0 is the header row. -/
abbrev Grid := List Row

/-- A condition object `{header: "...", value: "..."}`. -/
structure Condition where
  header : JSString
  value : JSString
deriving DecidableEq, Repr

/-- The own properties of a plain object such as `{header1: "value1"}`, whose
values are strings: the string stored under each key, `none` where the object
has no property of its own under that key. What the object inherits from
`Object.prototype` is added by `getProperty`. -/
abbrev JSObject := JSString → Cell

/-- Ways a call can stop without a value: a `TypeError` thrown by the
JavaScript engine, the iteration budget of a modelled loop used up, or the
`SyntaxError` thrown by `JSON.parse`. -/
inductive JSError where
  | typeError
  | outOfFuel
  | syntaxError
deriving DecidableEq, Repr

deriving instance DecidableEq for Except

/-- The read `a[i]` on an array: `undefined` for a hole and past the end. -/
def cellAt {α : Type} (a : List (Option α)) (i : Nat) : Option α := (a[i]?).join

/-- The method `String.prototype.includes`: `keyword` occurs in `s` as a run of code units. -/
def includes (s keyword : JSString) : Bool :=
  s.tails.any (fun t => keyword.isPrefixOf t)

/-- What the property read `record[key]` yields on a plain object, apart from
`undefined`: a string stored in the record itself, or the object that every
plain object inherits from `Object.prototype` under the name `key` (a
function such as `constructor`, the prototype itself for `__proto__`). -/
inductive PropertyValue where
  | string (s : JSString)
  | inherited (key : JSString)
deriving DecidableEq, Repr

/-- A row of a request: each element is `undefined` (`none`), a string, or an
object inherited from `Object.prototype`. -/
abbrev RequestRow := List (Option PropertyValue)

/-- The names of the properties of `Object.prototype`, which a plain object
inherits: those of the language and the legacy ones that browsers add. -/
def objectPrototypeKeys : List JSString :=
  [js "constructor", js "hasOwnProperty", js "isPrototypeOf", js "propertyIsEnumerable",
   js "toLocaleString", js "toString", js "valueOf", js "__proto__",
   js "__defineGetter__", js "__defineSetter__", js "__lookupGetter__",
   js "__lookupSetter__"]

/-- The property read `record[key]` on a plain object whose own properties are
`record`: the record's own string if it has the key, else what it inherits
from `Object.prototype`, else `undefined`. -/
def getProperty (record : JSObject) (key : JSString) : Option PropertyValue :=
  match record key with
  | some s => some (.string s)
  | none => if key ∈ objectPrototypeKeys then some (.inherited key) else none

/-- The cells of a sheet row as elements of a request row. -/
def toRequestRow (row : Row) : RequestRow := row.map (Option.map PropertyValue.string)

/-- The truthiness test `if (value)`: `undefined` and the empty string are
falsy, a non-empty string and an object are truthy. -/
def truthy : Option PropertyValue → Bool
  | none => false
  | some (.string s) => !s.isEmpty
  | some (.inherited _) => true

/-- Number to string conversion of a non-negative integer (decimal digits),
as done by `"..." + rowNumber`. -/
def numberToString (n : Nat) : JSString := (Nat.toDigits 10 n).map Char.toNat

/-- The property key an array element is converted to in `obj[key]`:
`undefined` becomes the key `"undefined"`. -/
def propertyKey : Cell → JSString
  | some s => s
  | none => js "undefined"

/-- The assignment `a[i] = v` on an array: inside the array it replaces the
element, past the end it extends the array, leaving holes in between. -/
def arraySet {α : Type} (a : List (Option α)) (i : Nat) (v : Option α) : List (Option α) :=
  if i < a.length then a.set i v else a ++ List.replicate (i - a.length) none ++ [v]

/-! ## Select -/

/-- The `returnCols` argument: an array of column names, or a string such as `"*"`. -/
inductive ReturnCols where
  | array (names : List JSString)
  | string (s : JSString)
deriving DecidableEq, Repr

/-- The values `returnCols[0]`, ..., `returnCols[returnCols.length - 1]`:
the elements of an array, the one-unit strings of a string. -/
def ReturnCols.elems : ReturnCols → List JSString
  | .array names => names
  | .string s => s.map (fun u => [u])

/-- The scan `for (j = 0; j < row.length; j++) if (row[j] === name) { ...; break; }`
used in lines 126-131 and 166-171: the first index whose cell is `name`. -/
def firstIndexOf (name : JSString) : Row → Option Nat
  | [] => none
  | c :: rest => if c = some name then some 0 else (firstIndexOf name rest).map (· + 1)

/-- The variable `headerIndex` after the scan of lines 165-171: `-1` when the
name is not found. -/
def headerIndexOf (row : Row) (name : JSString) : Int :=
  match firstIndexOf name row with
  | some j => (j : Int)
  | none => -1

/-- The inner loop of lines 192-197: some cell of the row is not `undefined`
and includes the keyword. -/
def someCellIncludes (row : Row) (keyword : JSString) : Bool :=
  row.any (fun c => match c with
    | none => false
    | some s => includes s keyword)

/-- The body of the loop of `filterByKeyword` up to the test `if (!shouldStay)`
(lines 190-202): whether row `values[i]` stays. -/
def shouldStay (row : Row) (keyword : JSString) (columnIndex : Int) : Except JSError Bool :=
  if columnIndex < 0 then
    .ok (someCellIncludes row keyword)
  else
    match cellAt row columnIndex.toNat with
    | none => .error .typeError
    | some s => .ok (includes s keyword)

/-- The loop of `filterByKeyword` (lines 189-208) with its variables `values`,
`rows` and `i`; `fuel` bounds the number of iterations. A row that does not
stay is spliced out, `rows` is decremented and `i` stays where it is. -/
def filterByKeywordLoop (keyword : JSString) (columnIndex : Int) :
    Nat → Grid → Nat → Nat → Except JSError Grid
  | 0, values, rows, i => if i < rows then .error .outOfFuel else .ok values
  | fuel + 1, values, rows, i =>
    if i < rows then
      match values[i]? with
      | none => .error .typeError
      | some row =>
        match shouldStay row keyword columnIndex with
        | .error e => .error e
        | .ok true => filterByKeywordLoop keyword columnIndex fuel values rows (i + 1)
        | .ok false => filterByKeywordLoop keyword columnIndex fuel (values.eraseIdx i) (rows - 1) i
    else .ok values

/-- The function `filterByKeyword(values, keyword, columnIndex)` (lines 186-210). Every
iteration either advances `i` or shortens the array, so `values.length`
iterations are enough. -/
def filterByKeyword (values : Grid) (keyword : JSString) (columnIndex : Int) :
    Except JSError Grid :=
  filterByKeywordLoop keyword columnIndex values.length values values.length 0

/-- The function `filterByConditions(values, conditions)` (lines 161-175): the header of each
condition is looked up in the current `values[0]`. -/
def filterByConditions : Grid → List Condition → Except JSError Grid
  | values, [] => .ok values
  | values, c :: cs =>
    match values[0]? with
    | none => .error .typeError
    | some first =>
      match filterByKeyword values c.value (headerIndexOf first c.header) with
      | .error e => .error e
      | .ok values1 => filterByConditions values1 cs

/-- The array `colIndex` built in lines 124-132: for each requested name the
index of its first occurrence in `headers`, nothing for a name not found. -/
def colIndexOf (headers : Row) (returnCols : ReturnCols) : List Nat :=
  returnCols.elems.filterMap (fun name => firstIndexOf name headers)

/-- The inner loops of lines 136-138 and 142-144: the cells of `row` at `colIndex`. -/
def projectRow (colIndex : List Nat) (row : Row) : Row := colIndex.map (cellAt row)

/-- The function `selectFromTableWhereConditions(response, returnCols, conditions, returnType)`
(lines 121-152), where `values` is `response.result.values`: the array `result`,
which is what the function returns for every `returnType` other than `0`. -/
def selectFromTableWhereConditions (values : Grid) (returnCols : ReturnCols)
    (conditions : List Condition) : Except JSError Grid :=
  match values[0]? with
  | none => .error .typeError
  | some headers =>
    let colIndex := colIndexOf headers returnCols
    match filterByConditions values conditions with
    | .error e => .error e
    | .ok values1 => .ok (projectRow colIndex headers :: values1.map (projectRow colIndex))

/-! ## Column letters -/

/-- The function `String.fromCharCode(c)`: the one-unit string of `c` modulo `2^16`. -/
def fromCharCode (c : Int) : JSString := [(c % 65536).toNat]

/-- The function `getCharFromNum(num)` (lines 291-293), where `'A'.charCodeAt(0)` is 65. -/
def getCharFromNum (num : Int) : JSString := fromCharCode (65 + num)

/-! ## Insert and update -/

/-- The loop of `objectToArrayByHeaders` (lines 364-369) from index `i` on. -/
def objectToArrayByHeadersLoop (toInsert : JSObject) :
    List Cell → Nat → RequestRow → RequestRow
  | [], _, values => values
  | h :: rest, i, values =>
    let value := getProperty toInsert (propertyKey h)
    objectToArrayByHeadersLoop toInsert rest (i + 1)
      (if truthy value then arraySet values i value else values)

/-- The function `objectToArrayByHeaders(headers, toInsert)` (lines 362-371). -/
def objectToArrayByHeaders (headers : Row) (toInsert : JSObject) : RequestRow :=
  objectToArrayByHeadersLoop toInsert headers 0 []

/-- The parameter object of the `append` request. -/
structure AppendParams where
  spreadsheetId : JSString
  range : JSString
  majorDimension : JSString
  valueInputOption : JSString
  values : List RequestRow
deriving DecidableEq, Repr

/-- The function `insertIntoTableColValues(headers, sheetName, toInsert)` (lines 331-344):
the `params` passed to `append`. -/
def insertIntoTableColValues (sheetId : JSString) (headers : Row) (sheetName : JSString)
    (toInsert : List JSObject) : AppendParams :=
  { spreadsheetId := sheetId
    range := sheetName ++ js "!A:A"
    majorDimension := js "ROWS"
    valueInputOption := js "RAW"
    values := toInsert.map (objectToArrayByHeaders headers) }

/-- The function `getRowNumbersByCondition(headers, values, condition)` (lines 429-444). -/
def getRowNumbersByCondition (headers : Row) (values : Grid) (condition : Condition) :
    List Nat :=
  (List.range headers.length).flatMap (fun i =>
    if headers[i]? = some (some condition.header) then
      (List.range' 1 (values.length - 1)).filter
        (fun j => (values[j]?).bind (fun row => cellAt row i) = some condition.value)
    else [])

/-- The loop of `fillRowValues` from index `i` on. -/
def fillRowValuesFrom {α : Type} (values : List (Option α)) :
    Nat → List (Option α) → List (Option α)
  | _, [] => []
  | i, none :: rest => cellAt values i :: fillRowValuesFrom values (i + 1) rest
  | i, some s :: rest => some s :: fillRowValuesFrom values (i + 1) rest

/-- The function `fillRowValues(rowValues, values)` (lines 453-460): the content of
`rowValues` after the call; the returned array is `rowValues` itself. -/
def fillRowValues {α : Type} (rowValues values : List (Option α)) : List (Option α) :=
  fillRowValuesFrom values 0 rowValues

/-- One element of `data`: `{range, majorDimension, values}`. -/
structure ValueRange where
  range : JSString
  majorDimension : JSString
  values : List RequestRow
deriving DecidableEq, Repr

/-- The range `sheetName + "!" + rowNumber + ":" + rowNumber` (line 398). -/
def rowRange (sheetName : JSString) (rowNumber : Nat) : JSString :=
  sheetName ++ js "!" ++ numberToString rowNumber ++ js ":" ++ numberToString rowNumber

/-- The loop over `rowNumbers` (lines 395-402) as far as `rowValues` goes: each
pass fills `rowValues` in place from row `rowNumber - 1`. A row number always
indexes an existing row; the read of a row that did not exist would throw at
the first hole of `rowValues`. -/
def fillFromRows (values : Grid) : List Nat → RequestRow → Except JSError RequestRow
  | [], rowValues => .ok rowValues
  | n :: rest, rowValues =>
    let rowNumber := n + 1
    match values[rowNumber - 1]? with
    | none => .error .typeError
    | some original =>
      fillFromRows values rest (fillRowValues rowValues (toRequestRow original))

/-- One pass of the loop over `conditions` (lines 391-402): the entries it
appends to `data`. All entries of one pass hold the same array `rowValues`
(`fillRowValues` returns its argument), so each shows its final content. -/
def entriesOfCondition (headers : Row) (values : Grid) (sheetName : JSString)
    (colVal : JSObject) (condition : Condition) : Except JSError (List ValueRange) :=
  let rowValues := objectToArrayByHeaders headers colVal
  let rowNumbers := getRowNumbersByCondition headers values condition
  match fillFromRows values rowNumbers rowValues with
  | .error e => .error e
  | .ok finalRowValues =>
    .ok (rowNumbers.map (fun n =>
      { range := rowRange sheetName (n + 1)
        majorDimension := js "ROWS"
        values := [finalRowValues] }))

/-- The loop over `conditions` of `batchUpdateTable` (lines 390-403),
appending to `data`. -/
def batchUpdateLoop (headers : Option Row) (values : Grid) (sheetName : JSString)
    (colVal : JSObject) : List Condition → List ValueRange → Except JSError (List ValueRange)
  | [], data => .ok data
  | c :: cs, data =>
    match headers with
    | none => .error .typeError
    | some hs =>
      match entriesOfCondition hs values sheetName colVal c with
      | .error e => .error e
      | .ok entries => batchUpdateLoop headers values sheetName colVal cs (data ++ entries)

/-- The request of `batchUpdate`: `params.spreadsheetId` and the `requestBody`. -/
structure BatchUpdateRequest where
  spreadsheetId : JSString
  valueInputOption : JSString
  data : List ValueRange
deriving DecidableEq, Repr

/-- The function `batchUpdateTable(sheetValues, sheetName, colVal, conditions)` (lines 383-410). -/
def batchUpdateTable (sheetId : JSString) (sheetValues : Grid) (sheetName : JSString)
    (colVal : JSObject) (conditions : List Condition) : Except JSError BatchUpdateRequest :=
  match batchUpdateLoop sheetValues[0]? sheetValues sheetName colVal conditions [] with
  | .error e => .error e
  | .ok data => .ok { spreadsheetId := sheetId, valueInputOption := js "RAW", data := data }


/-- The content of the caller's array `response.result.values` when
`selectFromTableWhereConditions` returns: line 122 binds `values` to that very
array and `filterByConditions` splices it in place, so it ends as the filtered
array from which the result rows are read. -/
def responseValuesAfterSelect (values : Grid) (conditions : List Condition) :
    Except JSError Grid :=
  match values[0]? with
  | none => .error .typeError
  | some _ => filterByConditions values conditions

/-! ## Column notation and new columns -/

/-- The loop of `getNotationFromColName` (lines 277-281) from index `i` on. -/
def getNotationFromColNameLoop (colName : JSString) : Row → Nat → Option JSString
  | [], _ => none
  | h :: rest, i =>
    if h = some colName then some (getCharFromNum (i : Int))
    else getNotationFromColNameLoop colName rest (i + 1)

/-- The function `getNotationFromColName(headers, colName)` (lines 276-283);
`none` is the returned `null`. -/
def getNotationFromColName (headers : Row) (colName : JSString) : Option JSString :=
  getNotationFromColNameLoop colName headers 0

/-- The parameter object of the `update` request. -/
structure UpdateParams where
  spreadsheetId : JSString
  range : JSString
  valueInputOption : JSString
  values : Grid
deriving DecidableEq, Repr

/-- The function `alterTableAddCol(sheetName, colNames, headersLength)` (lines 469-480):
the `params` passed to `update`. -/
def alterTableAddCol (sheetId : JSString) (sheetName : JSString) (colNames : Row)
    (headersLength : Int) : UpdateParams :=
  let startNotation := getCharFromNum headersLength
  let endNotation := getCharFromNum (headersLength + (colNames.length : Int) - 1)
  { spreadsheetId := sheetId
    range := sheetName ++ js "!" ++ startNotation ++ js "1:" ++ endNotation ++ js "1"
    valueInputOption := js "RAW"
    values := [colNames] }

/-! ## Records: `arrayToObjects` and `JSON.parse` -/

/-- A value returned by `JSON.parse`. A number is kept as the literal that was
read, and an object as its members in the order of their first appearance. -/
inductive JSValue where
  | null
  | bool (b : Bool)
  | number (literal : JSString)
  | string (s : JSString)
  | array (items : List JSValue)
  | object (members : List (JSString × JSValue))
deriving Repr

/-- JSON white space: tab, line feed, carriage return, space. -/
def isJsonWhitespace (u : Nat) : Bool := u == 9 || u == 10 || u == 13 || u == 32

/-- Drop the leading JSON white space. -/
def skipWhitespace : List Nat → List Nat
  | [] => []
  | u :: rest => if isJsonWhitespace u then skipWhitespace rest else u :: rest

/-- The value of a hexadecimal digit. -/
def hexDigit (u : Nat) : Option Nat :=
  if 48 ≤ u ∧ u ≤ 57 then some (u - 48)
  else if 65 ≤ u ∧ u ≤ 70 then some (u - 55)
  else if 97 ≤ u ∧ u ≤ 102 then some (u - 87)
  else none

/-- The code unit denoted by a one-letter JSON escape: quote, backslash, slash,
`b`, `f`, `n`, `r`, `t`. -/
def escapeUnit (e : Nat) : Option Nat :=
  if e = 34 then some 34 else if e = 92 then some 92 else if e = 47 then some 47
  else if e = 98 then some 8 else if e = 102 then some 12 else if e = 110 then some 10
  else if e = 114 then some 13 else if e = 116 then some 9 else none

/-- The characters of a JSON string after its opening quote, up to the closing
quote: the decoded string and the rest of the input. A quote ends the string, a
backslash starts an escape, and a control character below 32 is rejected. -/
def parseStringChars : List Nat → Option (JSString × List Nat)
  | [] => none
  | u :: rest =>
    if u = 34 then some ([], rest)
    else if u = 92 then
      match rest with
      | [] => none
      | e :: rest1 =>
        if e = 117 then
          match rest1 with
          | a :: b :: c :: d :: rest2 =>
            match hexDigit a, hexDigit b, hexDigit c, hexDigit d with
            | some x, some y, some z, some w =>
              (parseStringChars rest2).map
                (fun p => ((x * 4096 + y * 256 + z * 16 + w) :: p.1, p.2))
            | _, _, _, _ => none
          | _ => none
        else
          match escapeUnit e with
          | some v => (parseStringChars rest1).map (fun p => (v :: p.1, p.2))
          | none => none
    else if u < 32 then none
    else (parseStringChars rest).map (fun p => (u :: p.1, p.2))

/-- A decimal digit. -/
def isDigit (u : Nat) : Bool := 48 ≤ u && u ≤ 57

/-- The optional exponent of a JSON number: `e` or `E`, an optional sign, digits. -/
def parseExponent (literal : JSString) (input : List Nat) : Option (JSString × List Nat) :=
  match input with
  | e :: rest =>
    if e = 101 ∨ e = 69 then
      let sign := (rest.takeWhile (fun u => u = 43 ∨ u = 45)).take 1
      let rest1 := rest.drop sign.length
      let digits := rest1.takeWhile isDigit
      if digits = [] then none
      else some (literal ++ e :: sign ++ digits, rest1.dropWhile isDigit)
    else some (literal, input)
  | [] => some (literal, input)

/-- The optional fraction of a JSON number: a point and digits. -/
def parseFraction (literal : JSString) (input : List Nat) : Option (JSString × List Nat) :=
  match input with
  | p :: rest =>
    if p = 46 then
      let digits := rest.takeWhile isDigit
      if digits = [] then none
      else parseExponent (literal ++ 46 :: digits) (rest.dropWhile isDigit)
    else parseExponent literal input
  | [] => some (literal, input)

/-- The integer part of a JSON number: `0`, or a non-zero digit and more digits. -/
def parseInteger (literal : JSString) (input : List Nat) : Option (JSString × List Nat) :=
  match input with
  | d :: rest =>
    if d = 48 then parseFraction (literal ++ [48]) rest
    else if isDigit d then
      parseFraction (literal ++ d :: rest.takeWhile isDigit) (rest.dropWhile isDigit)
    else none
  | [] => none

/-- A JSON number: the literal read and the rest of the input. -/
def parseNumber (input : List Nat) : Option (JSString × List Nat) :=
  match input with
  | u :: rest => if u = 45 then parseInteger [45] rest else parseInteger [] input
  | [] => none

/-- Define property `key` of an object under construction: a key met again
keeps its place and takes the new value. -/
def setMember (members : List (JSString × JSValue)) (key : JSString) (v : JSValue) :
    List (JSString × JSValue) :=
  if members.any (fun m => m.1 == key) then
    members.map (fun m => if m.1 = key then (key, v) else m)
  else members ++ [(key, v)]

mutual

/-- A JSON value, after optional white space: the value and the rest of the
input. `fuel` bounds the depth of the calls. -/
def parseValue : Nat → List Nat → Except JSError (JSValue × List Nat)
  | 0, _ => .error .outOfFuel
  | fuel + 1, input =>
    match skipWhitespace input with
    | [] => .error .syntaxError
    | u :: rest =>
      if u = 123 then
        match skipWhitespace rest with
        | [] => .error .syntaxError
        | c :: rest1 =>
          if c = 125 then .ok (.object [], rest1) else parseMembers fuel (c :: rest1) []
      else if u = 91 then
        match skipWhitespace rest with
        | [] => .error .syntaxError
        | c :: rest1 =>
          if c = 93 then .ok (.array [], rest1) else parseItems fuel (c :: rest1) []
      else if u = 34 then
        match parseStringChars rest with
        | some (s, rest1) => .ok (.string s, rest1)
        | none => .error .syntaxError
      else if u = 45 ∨ isDigit u = true then
        match parseNumber (u :: rest) with
        | some (literal, rest1) => .ok (.number literal, rest1)
        | none => .error .syntaxError
      else if [116, 114, 117, 101].isPrefixOf (u :: rest) = true then
        .ok (.bool true, rest.drop 3)
      else if [102, 97, 108, 115, 101].isPrefixOf (u :: rest) = true then
        .ok (.bool false, rest.drop 4)
      else if [110, 117, 108, 108].isPrefixOf (u :: rest) = true then
        .ok (.null, rest.drop 3)
      else .error .syntaxError

/-- The members of a JSON object from the start of a member on: a string key,
a colon, a value, then a comma and more members or the closing brace. -/
def parseMembers : Nat → List Nat → List (JSString × JSValue) →
    Except JSError (JSValue × List Nat)
  | 0, _, _ => .error .outOfFuel
  | fuel + 1, input, members =>
    match skipWhitespace input with
    | [] => .error .syntaxError
    | q :: rest =>
      if q = 34 then
        match parseStringChars rest with
        | none => .error .syntaxError
        | some (key, rest1) =>
          match skipWhitespace rest1 with
          | [] => .error .syntaxError
          | c :: rest2 =>
            if c = 58 then
              match parseValue fuel rest2 with
              | .error e => .error e
              | .ok (v, rest3) =>
                match skipWhitespace rest3 with
                | [] => .error .syntaxError
                | d :: rest4 =>
                  if d = 44 then parseMembers fuel rest4 (setMember members key v)
                  else if d = 125 then .ok (.object (setMember members key v), rest4)
                  else .error .syntaxError
            else .error .syntaxError
      else .error .syntaxError

/-- The items of a JSON array from the start of an item on: a value, then a
comma and more items or the closing bracket. -/
def parseItems : Nat → List Nat → List JSValue → Except JSError (JSValue × List Nat)
  | 0, _, _ => .error .outOfFuel
  | fuel + 1, input, items =>
    match parseValue fuel input with
    | .error e => .error e
    | .ok (v, rest) =>
      match skipWhitespace rest with
      | [] => .error .syntaxError
      | d :: rest1 =>
        if d = 44 then parseItems fuel rest1 (items ++ [v])
        else if d = 93 then .ok (.array (items ++ [v]), rest1)
        else .error .syntaxError

end

/-- The function `JSON.parse(text)` without reviver: one JSON value surrounded
by optional white space, a `SyntaxError` otherwise. Each call of the three
parsers above either follows the reading of at least one character or is the
call of `parseValue` at the start of an array item, so the calls nest at most
twice the length of the text deep. -/
def jsonParse (text : JSString) : Except JSError JSValue :=
  match parseValue (2 * text.length + 2) text with
  | .error e => .error e
  | .ok (v, rest) => if skipWhitespace rest = [] then .ok v else .error .syntaxError

/-- The string a cell contributes to a concatenation: `undefined` gives `"undefined"`. -/
def cellToString : Cell → JSString
  | some s => s
  | none => js "undefined"

/-- The inner loop of `arrayToObjects` (lines 307-312) from index `j` on: for each
cell of the row the text `"header":"cell"`, and a comma after all but the last. -/
def rowMembersText (headers : Row) : Nat → Row → JSString
  | _, [] => []
  | j, c :: rest =>
    [34] ++ cellToString (cellAt headers j) ++ [34, 58, 34] ++ cellToString c ++ [34]
      ++ (if rest.isEmpty then [] else [44])
      ++ rowMembersText headers (j + 1) rest

/-- The method call `s.replace(/u/g, by)` for a one-unit pattern: every `u` is replaced. -/
def replaceUnit (u : Nat) (replacement : JSString) (s : JSString) : JSString :=
  s.flatMap (fun x => if x = u then replacement else [x])

/-- The four replacements of lines 314-317: line feed, carriage return, tab and
form feed become the two characters of their escapes. -/
def escapeLineBreaks (s : JSString) : JSString :=
  replaceUnit 12 [92, 102] (replaceUnit 9 [92, 116]
    (replaceUnit 13 [92, 114] (replaceUnit 10 [92, 110] s)))

/-- The text `tempStr` built for one row (lines 306-313). -/
def rowText (headers row : Row) : JSString :=
  [123] ++ rowMembersText headers 0 row ++ [125]

/-- The outer loop of `arrayToObjects` (lines 305-318) over the rows after the first. -/
def arrayToObjectsLoop (headers : Row) : List Row → Except JSError (List JSValue)
  | [] => .ok []
  | row :: rest =>
    match jsonParse (escapeLineBreaks (rowText headers row)) with
    | .error e => .error e
    | .ok record =>
      match arrayToObjectsLoop headers rest with
      | .error e => .error e
      | .ok records => .ok (record :: records)

/-- The function `arrayToObjects(array)` (lines 301-320). -/
def arrayToObjects (array : Grid) : Except JSError (List JSValue) :=
  match array with
  | [] => .ok []
  | headers :: rows => arrayToObjectsLoop headers rows

/-! ## The behaviour the specification describes -/

/-- Whether a row satisfies a condition as the specification words it: the cell
in the column named by the condition contains the condition's value. -/
def rowMatchesSpec (headers row : Row) (c : Condition) : Bool :=
  match (firstIndexOf c.header headers).bind (cellAt row) with
  | some s => includes s c.value
  | none => false

/-- The select described by the specification: the projected header row, then
the data rows (never the header row) that satisfy every condition, each
reduced to the projected columns, in their original order. -/
def selectSpec (values : Grid) (returnCols : List JSString) (conditions : List Condition) :
    Grid :=
  match values with
  | [] => []
  | headers :: dataRows =>
    projectRow (colIndexOf headers (.array returnCols)) headers ::
      (dataRows.filter (fun row => conditions.all (rowMatchesSpec headers row))).map
        (projectRow (colIndexOf headers (.array returnCols)))

/-- The merged row described by the specification: cell `i` is the new value
where `colVal` has one for column `i`, and the original cell `i` elsewhere. -/
def mergedRowSpec (headers : Row) (colVal : JSObject) (original : Row) : RequestRow :=
  (List.range headers.length).map (fun i =>
    match getProperty colVal (propertyKey (cellAt headers i)) with
    | some v => some v
    | none => cellAt (toRequestRow original) i)

/-- The rows a condition selects for an update, as the specification words it:
the grid indices `j` of the data rows (so `1 ≤ j`), in ascending order, whose
cell in the column named by the condition is exactly the condition's value. -/
def exactMatchRows (headers : Row) (rows : List Row) (c : Condition) : List Nat :=
  (List.range' 1 rows.length).filter (fun j =>
    (firstIndexOf c.header headers).bind
      (fun i => ((headers :: rows)[j]?).bind (fun row => cellAt row i)) = some c.value)

/-- A grid as the specification's data model has it: every cell is a string and
every data row has the header row's length. -/
def isRectangular (headers : Row) (rows : List Row) : Bool :=
  (headers :: rows).all (fun row => row.length == headers.length && row.all Option.isSome)

/-- The pure filter on column `c`: the rows whose cell at `c` includes the keyword. -/
def rowsIncluding (values : Grid) (keyword : JSString) (c : Nat) : Grid :=
  values.filter (fun row =>
    match cellAt row c with
    | some s => includes s keyword
    | none => false)

/-! ## Sample data -/

/-- A sheet with two columns and two data rows. -/
def people : Grid :=
  [[some (js "name"), some (js "age")],
   [some (js "Alice"), some (js "30")],
   [some (js "Bob"), some (js "25")]]

/-- A sheet whose data row lacks its last cell. -/
def ragged : Grid :=
  [[some (js "name"), some (js "age")],
   [some (js "Alice")]]

/-- A sheet in which two data rows share the value of column `grp`. -/
def team : Grid :=
  [[some (js "name"), some (js "grp"), some (js "age")],
   [some (js "A"), some (js "g"), some (js "30")],
   [some (js "B"), some (js "g"), some (js "25")]]

/-- The object `{age: "9"}`. -/
def setAge : JSObject := fun k => if k = js "age" then some (js "9") else none

/-- The object `{name: "", age: "5"}`. -/
def blankName : JSObject := fun k =>
  if k = js "name" then some [] else if k = js "age" then some (js "5") else none

/-! ## Auxiliary facts -/

theorem firstIndexOf_eq_none {name : JSString} {row : Row} :
    firstIndexOf name row = none ↔ some name ∉ row := by
  induction row with
  | nil => simp [firstIndexOf]
  | cons c rest ih =>
    by_cases hc : c = some name
    · simp [firstIndexOf, hc]
    · have hne : ¬ some name = c := fun h => hc h.symm
      simp [firstIndexOf, hc, hne, ih]

theorem cellAt_of_firstIndexOf {name : JSString} {row : Row} {j : Nat}
    (h : firstIndexOf name row = some j) : cellAt row j = some name := by
  induction row generalizing j with
  | nil => simp [firstIndexOf] at h
  | cons c rest ih =>
    by_cases hc : c = some name
    · simp [firstIndexOf, hc] at h
      subst h
      simp [cellAt, hc]
    · simp only [firstIndexOf, hc, if_false, Option.map_eq_some'] at h
      obtain ⟨k, hk, rfl⟩ := h
      have := ih hk
      simpa [cellAt] using this

theorem length_projectRow (colIndex : List Nat) (row : Row) :
    (projectRow colIndex row).length = colIndex.length := by
  simp [projectRow]

theorem length_colIndexOf_array (headers : Row) (names : List JSString) :
    (colIndexOf headers (.array names)).length
      = (names.filter (fun n => decide (some n ∈ headers))).length := by
  induction names with
  | nil => simp [colIndexOf, ReturnCols.elems]
  | cons n rest ih =>
    simp only [colIndexOf, ReturnCols.elems] at ih ⊢
    by_cases hn : some n ∈ headers
    · obtain ⟨j, hj⟩ := Option.ne_none_iff_exists'.mp
        (fun h => (firstIndexOf_eq_none.mp h) hn)
      simp [List.filterMap_cons, List.filter_cons, hn, ih, hj]
    · have hj := firstIndexOf_eq_none.mpr hn
      simp [List.filterMap_cons, List.filter_cons, hn, ih, hj]

theorem projectRow_headers (headers : Row) (names : List JSString) :
    projectRow (colIndexOf headers (.array names)) headers
      = (names.filter (fun n => decide (some n ∈ headers))).map some := by
  induction names with
  | nil => simp [colIndexOf, ReturnCols.elems, projectRow]
  | cons n rest ih =>
    simp only [colIndexOf, ReturnCols.elems, projectRow] at ih ⊢
    by_cases hn : some n ∈ headers
    · obtain ⟨j, hj⟩ := Option.ne_none_iff_exists'.mp
        (fun h => (firstIndexOf_eq_none.mp h) hn)
      simp [List.filterMap_cons, List.filter_cons, hn, ih, hj, cellAt_of_firstIndexOf hj]
    · have hj := firstIndexOf_eq_none.mpr hn
      simp [List.filterMap_cons, List.filter_cons, hn, ih, hj]

/-- The splice-while-iterating loop keeps the rows before `i` and, of the rows
from `i` on, those that stay, provided the test throws on none of them. -/
theorem filterByKeywordLoop_eq_filter (keyword : JSString) (columnIndex : Int)
    (p : Row → Bool) :
    ∀ (fuel : Nat) (values : Grid) (i : Nat), values.length - i ≤ fuel → i ≤ values.length →
      (∀ row ∈ values.drop i, shouldStay row keyword columnIndex = .ok (p row)) →
      filterByKeywordLoop keyword columnIndex fuel values values.length i
        = .ok (values.take i ++ (values.drop i).filter p) := by
  intro fuel
  induction fuel with
  | zero =>
    intro values i hfuel hi _
    have hEq : i = values.length := by omega
    subst hEq
    simp [filterByKeywordLoop]
  | succ fuel ih =>
    intro values i hfuel hi hp
    by_cases hlt : i < values.length
    · have hdrop : values.drop i = values[i] :: values.drop (i + 1) :=
        List.drop_eq_getElem_cons hlt
      have hrow : shouldStay values[i] keyword columnIndex = .ok (p values[i]) :=
        hp _ (by rw [hdrop]; exact List.mem_cons_self _ _)
      have hget : values[i]? = some values[i] := List.getElem?_eq_getElem hlt
      rw [filterByKeywordLoop, if_pos hlt, hget]
      simp only [hrow]
      cases hpi : p values[i] with
      | true =>
        simp only []
        rw [ih values (i + 1) (by omega) (by omega)
          (fun row hmem => hp row (by rw [hdrop]; exact List.mem_cons_of_mem _ hmem))]
        have htk : values.take (i + 1) = values.take i ++ [values[i]] := by
          rw [List.take_succ, hget]
          rfl
        rw [hdrop, List.filter_cons, hpi, htk, List.append_assoc]
        rfl
      | false =>
        simp only []
        have hlen : (values.eraseIdx i).length = values.length - 1 :=
          List.length_eraseIdx_of_lt hlt
        have herase : values.eraseIdx i = values.take i ++ values.drop (i + 1) :=
          List.eraseIdx_eq_take_drop_succ values i
        have htake : (values.eraseIdx i).take i = values.take i := by
          rw [herase, List.take_append_of_le_length (by simp; omega)]
          simp
        have hdropE : (values.eraseIdx i).drop i = values.drop (i + 1) := by
          rw [herase, List.drop_append_of_le_length (by simp; omega)]
          simp [List.drop_take]
        have := ih (values.eraseIdx i) i (by omega) (by omega)
          (fun row hmem => hp row (by
            rw [hdropE] at hmem
            rw [hdrop]; exact List.mem_cons_of_mem _ hmem))
        rw [hlen] at this
        rw [this, htake, hdropE, hdrop, List.filter_cons, hpi]
        simp
    · have hEq : i = values.length := by omega
      subst hEq
      rw [filterByKeywordLoop, if_neg hlt]
      simp

/-- The function `filterByKeyword` is a filter when the test throws on no row. -/
theorem filterByKeyword_eq_filter (values : Grid) (keyword : JSString) (columnIndex : Int)
    (p : Row → Bool)
    (hp : ∀ row ∈ values, shouldStay row keyword columnIndex = .ok (p row)) :
    filterByKeyword values keyword columnIndex = .ok (values.filter p) := by
  have := filterByKeywordLoop_eq_filter keyword columnIndex p values.length values 0
    (by omega) (by omega) (by simpa using hp)
  simpa [filterByKeyword] using this

theorem headerIndexOf_of_not_mem {row : Row} {name : JSString} (h : some name ∉ row) :
    headerIndexOf row name = -1 := by
  simp [headerIndexOf, firstIndexOf_eq_none.mpr h]

theorem shouldStay_neg_one (row : Row) (keyword : JSString) :
    shouldStay row keyword (-1) = .ok (someCellIncludes row keyword) := by
  simp [shouldStay]

/-! ## Inputs on which the code departs from its documented behaviour -/

/-- C1 (defect in the code): `filterByKeyword` starts at row 0, so the header row
is filtered like a data row. With the condition `name` contains `"a"` on the
sheet `people` no data row matches, yet the header row stays and is returned
as a data row; once the header row is spliced out the next condition looks
its column up in the first data row and matches any column (`"0"` occurs in
`"30"`), and when no row is left `values[0].length` throws a `TypeError`. -/
theorem selectFromTableWhereConditions_filters_header_row :
    (selectFromTableWhereConditions people (.array [js "name"]) [⟨js "name", js "a"⟩]
        = .ok [[some (js "name")], [some (js "name")]]
      ∧ selectSpec people [js "name"] [⟨js "name", js "a"⟩] = [[some (js "name")]])
    ∧ (selectFromTableWhereConditions people (.array [js "name"])
          [⟨js "age", js "3"⟩, ⟨js "name", js "0"⟩]
        = .ok [[some (js "name")], [some (js "Alice")]]
      ∧ selectSpec people [js "name"] [⟨js "age", js "3"⟩, ⟨js "name", js "0"⟩]
        = [[some (js "name")]])
    ∧ (selectFromTableWhereConditions people (.array [js "name"])
          [⟨js "age", js "99"⟩, ⟨js "name", js "x"⟩]
        = .error .typeError
      ∧ selectSpec people [js "name"] [⟨js "age", js "99"⟩, ⟨js "name", js "x"⟩]
        = [[some (js "name")]]) := by
  refine ⟨⟨?_, ?_⟩, ⟨?_, ?_⟩, ?_, ?_⟩ <;> decide

/-- C2 (defect in the code): `rowValues` is built once per condition and filled
in place, so when the condition `grp = "g"` matches rows 1 and 2 of `team`
the holes are filled from row 1 and the entry for row 2 (range `S!3:3`)
carries the name `"A"` of row 1 instead of its own `"B"`. -/
theorem batchUpdateTable_reuses_filled_row :
    batchUpdateTable (js "id") team (js "S") setAge [⟨js "grp", js "g"⟩]
      = .ok { spreadsheetId := js "id"
              valueInputOption := js "RAW"
              data :=
                [{ range := js "S!2:2", majorDimension := js "ROWS"
                   values := [toRequestRow [some (js "A"), some (js "g"), some (js "9")]] },
                 { range := js "S!3:3", majorDimension := js "ROWS"
                   values := [toRequestRow [some (js "A"), some (js "g"), some (js "9")]] }] }
    ∧ mergedRowSpec [some (js "name"), some (js "grp"), some (js "age")] setAge
        [some (js "B"), some (js "g"), some (js "25")]
      = toRequestRow [some (js "B"), some (js "g"), some (js "9")] := by
  decide

/-- C5 (defect in the code): the string `"*"` is read as a list with the single
name `"*"`, so unless a column is called `"*"` no column is selected and
every row of the result is empty. -/
theorem selectFromTableWhereConditions_star_selects_nothing :
    selectFromTableWhereConditions people (.string (js "*")) [] = .ok [[], [], [], []]
    ∧ ∀ rows : List Row,
        selectFromTableWhereConditions ([some (js "name"), some (js "age")] :: rows)
          (.string (js "*")) [] = .ok (List.replicate (rows.length + 2) []) := by
  refine ⟨by decide, fun rows => ?_⟩
  have h : colIndexOf [some (js "name"), some (js "age")] (.string (js "*")) = [] := by decide
  simp [selectFromTableWhereConditions, filterByConditions, h, projectRow,
    List.replicate_succ, List.eq_replicate_iff]

/-- C7 (defect in the code): with a column index found, `filterByKeyword` calls
`includes` on the cell without the `undefined` test of its other branch: on
the sheet `ragged`, whose data row has no `age` cell, the condition on `age`
throws a `TypeError`, while a condition on an unknown column is answered. -/
theorem selectFromTableWhereConditions_short_row_throws :
    selectFromTableWhereConditions ragged (.array [js "name"]) [⟨js "age", js "3"⟩]
      = .error .typeError
    ∧ selectFromTableWhereConditions ragged (.array [js "name"]) [⟨js "city", js "A"⟩]
      = .ok [[some (js "name")], [some (js "Alice")]] := by
  decide

/-- C8 (defect in the code): positions 0 to 25 give the letters `A` to `Z`, and
position 26 gives the character `[` (code 91) instead of being rejected. -/
theorem getCharFromNum_letters_and_26 :
    (∀ p : Fin 26, getCharFromNum (p.val : Int) = [65 + p.val])
    ∧ getCharFromNum 0 = js "A" ∧ getCharFromNum 25 = js "Z"
    ∧ getCharFromNum 26 = js "[" := by
  decide

/-- C10 (defect in the code): with no condition nothing is spliced out and the
loop of lines 140-146 starts at row 0, so the header row is returned a second
time as a data row: the result has N + 2 rows, not N + 1. -/
theorem selectFromTableWhereConditions_no_conditions_repeats_header :
    (∀ (headers : Row) (rows : List Row) (returnCols : ReturnCols),
      selectFromTableWhereConditions (headers :: rows) returnCols []
        = .ok (projectRow (colIndexOf headers returnCols) headers ::
            projectRow (colIndexOf headers returnCols) headers ::
            rows.map (projectRow (colIndexOf headers returnCols))))
    ∧ selectFromTableWhereConditions people (.array [js "name"]) []
        = .ok [[some (js "name")], [some (js "name")], [some (js "Alice")], [some (js "Bob")]]
    ∧ selectSpec people [js "name"] []
        = [[some (js "name")], [some (js "Alice")], [some (js "Bob")]] := by
  refine ⟨fun headers rows returnCols => ?_, by decide, by decide⟩
  simp [selectFromTableWhereConditions, filterByConditions]

/-! ## Select: projection -/

/-- C9: the first row of the result is the list of requested names without
those that are not in the header row (order and repetitions kept), every row
of the result has as many cells as the first, and the call fails only where
the filtering of the rows fails, which does not look at the requested names;
with no condition it does not fail. -/
theorem selectFromTableWhereConditions_projection (headers : Row) (rows : List Row)
    (returnCols : List JSString) (conditions : List Condition) :
    (∀ result, selectFromTableWhereConditions (headers :: rows) (.array returnCols) conditions
        = .ok result →
      result.head? = some ((returnCols.filter (fun n => decide (some n ∈ headers))).map some)
      ∧ ∀ row ∈ result,
          row.length = (returnCols.filter (fun n => decide (some n ∈ headers))).length)
    ∧ (∀ e, selectFromTableWhereConditions (headers :: rows) (.array returnCols) conditions
          = .error e ↔ filterByConditions (headers :: rows) conditions = .error e)
    ∧ ∃ result, selectFromTableWhereConditions (headers :: rows) (.array returnCols) []
        = .ok result := by
  refine ⟨fun result h => ?_, fun e => ?_, ?_⟩
  · simp only [selectFromTableWhereConditions, List.getElem?_cons_zero] at h
    cases hf : filterByConditions (headers :: rows) conditions with
    | error e => simp [hf] at h
    | ok kept =>
      simp only [hf, Except.ok.injEq] at h
      subst h
      refine ⟨by simp [projectRow_headers], fun row hrow => ?_⟩
      rw [← length_colIndexOf_array]
      rcases List.mem_cons.mp hrow with h1 | h2
      · rw [h1, length_projectRow]
      · obtain ⟨r, _, rfl⟩ := List.mem_map.mp h2
        rw [length_projectRow]
  · simp only [selectFromTableWhereConditions, List.getElem?_cons_zero]
    cases hf : filterByConditions (headers :: rows) conditions <;> simp
  · exact ⟨_, (by simp [selectFromTableWhereConditions, filterByConditions] :
      selectFromTableWhereConditions (headers :: rows) (.array returnCols) [] = .ok
        (projectRow (colIndexOf headers (.array returnCols)) headers ::
          projectRow (colIndexOf headers (.array returnCols)) headers ::
          rows.map (projectRow (colIndexOf headers (.array returnCols)))))⟩

/-- Witness for C9 on the sheet `people`: of the requested names `name`, `city`,
`name` the unknown `city` is dropped and both rows of the result have two cells. -/
theorem selectFromTableWhereConditions_projection_witness :
    selectFromTableWhereConditions people
        (.array [js "name", js "city", js "name"]) [⟨js "age", js "25"⟩]
      = .ok [[some (js "name"), some (js "name")], [some (js "Bob"), some (js "Bob")]]
    ∧ ([[some (js "name"), some (js "name")], [some (js "Bob"), some (js "Bob")]] : Grid).head?
      = some (([js "name", js "city", js "name"].filter
          (fun n => decide (some n ∈ [some (js "name"), some (js "age")]))).map some) :=
  ⟨by decide,
   ((selectFromTableWhereConditions_projection [some (js "name"), some (js "age")]
      [[some (js "Alice"), some (js "30")], [some (js "Bob"), some (js "25")]]
      [js "name", js "city", js "name"] [⟨js "age", js "25"⟩]).1
      [[some (js "name"), some (js "name")], [some (js "Bob"), some (js "Bob")]]
      (by decide)).1⟩

/-! ## Select: a condition on an unknown column -/

/-- C6 as stated fails: on the sheet `people` the condition on the unknown
column `city` with value `"o"` keeps the row of Bob, whose name includes `"o"`,
so it is false that such a condition always leaves the header row alone. -/
theorem selectFromTableWhereConditions_unknown_column_not_empty :
    ¬ ∀ (headers : Row) (rows : List Row) (returnCols : ReturnCols) (c : Condition),
        some c.header ∉ headers →
        selectFromTableWhereConditions (headers :: rows) returnCols [c]
          = .ok [projectRow (colIndexOf headers returnCols) headers] := by
  intro h
  have h1 := h [some (js "name"), some (js "age")]
    [[some (js "Alice"), some (js "30")], [some (js "Bob"), some (js "25")]]
    (.array [js "name"]) ⟨js "city", js "o"⟩ (by decide)
  revert h1
  decide

/-- A single condition whose header is not in the header row filters every row
of the array, the header row too, by whether some cell includes the value. -/
theorem selectFromTableWhereConditions_unknown_column (headers : Row) (rows : List Row)
    (returnCols : ReturnCols) (c : Condition) (h : some c.header ∉ headers) :
    selectFromTableWhereConditions (headers :: rows) returnCols [c]
      = .ok (projectRow (colIndexOf headers returnCols) headers ::
          ((headers :: rows).filter (fun row => someCellIncludes row c.value)).map
            (projectRow (colIndexOf headers returnCols))) := by
  have hf : filterByKeyword (headers :: rows) c.value (-1)
      = .ok ((headers :: rows).filter (fun row => someCellIncludes row c.value)) :=
    filterByKeyword_eq_filter _ _ _ _ (fun row _ => shouldStay_neg_one row c.value)
  simp only [selectFromTableWhereConditions, filterByConditions, List.getElem?_cons_zero,
    headerIndexOf_of_not_mem h, hf]

/-- C6 (amended): a single condition whose header is not in the header row, and
whose value is included in no cell of the header row, does not make the call
fail: the result is the projected header row followed by exactly the data
rows in which some cell includes the condition's value, in their order, each
reduced to the requested columns. -/
theorem selectFromTableWhereConditions_unknown_column_any_cell (headers : Row)
    (rows : List Row) (returnCols : ReturnCols) (c : Condition)
    (h : some c.header ∉ headers) (hvalue : someCellIncludes headers c.value = false) :
    selectFromTableWhereConditions (headers :: rows) returnCols [c]
      = .ok (projectRow (colIndexOf headers returnCols) headers ::
          (rows.filter (fun row => someCellIncludes row c.value)).map
            (projectRow (colIndexOf headers returnCols))) := by
  rw [selectFromTableWhereConditions_unknown_column headers rows returnCols c h,
    List.filter_cons, hvalue]
  rfl

/-- Witness for C6 (amended) on the sheet `people`, with the unknown column `city`
and the value `"o"`, which no header cell includes: the row of Bob is kept. -/
theorem selectFromTableWhereConditions_unknown_column_any_cell_witness :
    (some (js "city") ∉ ([some (js "name"), some (js "age")] : Row)
      ∧ someCellIncludes [some (js "name"), some (js "age")] (js "o") = false)
    ∧ selectFromTableWhereConditions
          ([some (js "name"), some (js "age")] ::
            [[some (js "Alice"), some (js "30")], [some (js "Bob"), some (js "25")]])
          (.array [js "name"]) [⟨js "city", js "o"⟩]
        = .ok (projectRow (colIndexOf [some (js "name"), some (js "age")] (.array [js "name"]))
              [some (js "name"), some (js "age")] ::
            (([[some (js "Alice"), some (js "30")],
                [some (js "Bob"), some (js "25")]] : List Row).filter
                  (fun row => someCellIncludes row (js "o"))).map
              (projectRow (colIndexOf [some (js "name"), some (js "age")]
                (.array [js "name"]))))
    ∧ selectFromTableWhereConditions people (.array [js "name"]) [⟨js "city", js "o"⟩]
        = .ok [[some (js "name")], [some (js "Bob")]] :=
  ⟨⟨by decide, by decide⟩,
   selectFromTableWhereConditions_unknown_column_any_cell [some (js "name"), some (js "age")]
     [[some (js "Alice"), some (js "30")], [some (js "Bob"), some (js "25")]]
     (.array [js "name"]) ⟨js "city", js "o"⟩ (by decide) (by decide),
   by decide⟩

/-! ## Update: which rows are planned -/

theorem flatMap_header_index (name : JSString) :
    ∀ (headers : Row) (f : Nat → List Nat), headers.Nodup →
      (List.range headers.length).flatMap
          (fun i => if headers[i]? = some (some name) then f i else [])
        = match firstIndexOf name headers with
          | some i => f i
          | none => [] := by
  intro headers
  induction headers with
  | nil => intro f _; simp [firstIndexOf]
  | cons c rest ih =>
    intro f hnd
    have hnd2 := List.nodup_cons.mp hnd
    rw [List.length_cons, List.range_succ_eq_map, List.flatMap_cons, List.flatMap_map]
    have hrest := ih (fun i => f (i + 1)) hnd2.2
    simp only [Function.comp_def, Nat.succ_eq_add_one, List.getElem?_cons_succ,
      List.getElem?_cons_zero] at hrest ⊢
    rw [hrest]
    by_cases hc : c = some name
    · have hnone : firstIndexOf name rest = none :=
        firstIndexOf_eq_none.mpr (fun hmem => hnd2.1 (hc ▸ hmem))
      simp [firstIndexOf, hc, hnone]
    · cases hfi : firstIndexOf name rest <;> simp [firstIndexOf, hc, hfi]

theorem getRowNumbersByCondition_eq (headers : Row) (rows : List Row) (c : Condition)
    (hnd : headers.Nodup) :
    getRowNumbersByCondition headers (headers :: rows) c = exactMatchRows headers rows c := by
  unfold getRowNumbersByCondition exactMatchRows
  rw [flatMap_header_index c.header headers _ hnd]
  cases hfi : firstIndexOf c.header headers <;> simp

theorem getRowNumbersByCondition_valid (headers : Row) (values : Grid) (c : Condition) :
    ∀ n ∈ getRowNumbersByCondition headers values c, ∃ row, values[n]? = some row := by
  intro n hn
  simp only [getRowNumbersByCondition, List.mem_flatMap] at hn
  obtain ⟨i, _, hi⟩ := hn
  split at hi
  · simp only [List.mem_filter, decide_eq_true_eq] at hi
    cases hv : values[n]? with
    | none => simp [hv] at hi
    | some row => exact ⟨row, rfl⟩
  · simp at hi

theorem fillFromRows_ok (values : Grid) :
    ∀ (rowNumbers : List Nat) (rowValues : RequestRow),
      (∀ n ∈ rowNumbers, ∃ row, values[n]? = some row) →
      ∃ final, fillFromRows values rowNumbers rowValues = .ok final := by
  intro rowNumbers
  induction rowNumbers with
  | nil => intro rowValues _; exact ⟨rowValues, rfl⟩
  | cons n rest ih =>
    intro rowValues h
    obtain ⟨row, hrow⟩ := h n (List.mem_cons_self _ _)
    obtain ⟨final, hfinal⟩ := ih (fillRowValues rowValues (toRequestRow row))
      (fun m hm => h m (List.mem_cons_of_mem _ hm))
    exact ⟨final, by simp [fillFromRows, hrow, hfinal]⟩

theorem entriesOfCondition_ranges (headers : Row) (values : Grid) (sheetName : JSString)
    (colVal : JSObject) (c : Condition) :
    ∃ entries, entriesOfCondition headers values sheetName colVal c = .ok entries ∧
      entries.map (fun e => e.range)
        = (getRowNumbersByCondition headers values c).map
            (fun n => rowRange sheetName (n + 1)) := by
  obtain ⟨final, hfinal⟩ := fillFromRows_ok values
    (getRowNumbersByCondition headers values c) (objectToArrayByHeaders headers colVal)
    (getRowNumbersByCondition_valid headers values c)
  refine ⟨(getRowNumbersByCondition headers values c).map (fun n =>
      { range := rowRange sheetName (n + 1)
        majorDimension := js "ROWS"
        values := [final] }), by simp only [entriesOfCondition, hfinal], ?_⟩
  simp [List.map_map, Function.comp_def]

theorem batchUpdateLoop_ranges (headers : Row) (values : Grid) (sheetName : JSString)
    (colVal : JSObject) :
    ∀ (conditions : List Condition) (data : List ValueRange),
      ∃ out, batchUpdateLoop (some headers) values sheetName colVal conditions data = .ok out ∧
        out.map (fun e => e.range)
          = data.map (fun e => e.range) ++
            conditions.flatMap (fun c =>
              (getRowNumbersByCondition headers values c).map
                (fun n => rowRange sheetName (n + 1))) := by
  intro conditions
  induction conditions with
  | nil => intro data; exact ⟨data, rfl, by simp⟩
  | cons c cs ih =>
    intro data
    obtain ⟨entries, hentries, hranges⟩ :=
      entriesOfCondition_ranges headers values sheetName colVal c
    obtain ⟨out, hout, houtRanges⟩ := ih (data ++ entries)
    refine ⟨out, by simp only [batchUpdateLoop, hentries, hout], ?_⟩
    rw [houtRanges, List.map_append, hranges, List.flatMap_cons, List.append_assoc]

/-- C3: when the header names are unique the call never fails, and the ranges of
its plan entries are, condition after condition in list order, the ranges
`sheetName!n:n` with `n = j + 1` for the grid indices `j` of the data rows
whose cell in the condition's column is exactly the condition's value, in
ascending order; the number of entries is the sum of these counts. -/
theorem batchUpdateTable_ranges (sheetId : JSString) (headers : Row) (rows : List Row)
    (sheetName : JSString) (colVal : JSObject) (conditions : List Condition)
    (hnd : headers.Nodup) :
    ∃ request, batchUpdateTable sheetId (headers :: rows) sheetName colVal conditions
        = .ok request
      ∧ request.data.map (fun e => e.range)
          = conditions.flatMap (fun c =>
              (exactMatchRows headers rows c).map (fun j => rowRange sheetName (j + 1)))
      ∧ request.data.length
          = (conditions.map (fun c => (exactMatchRows headers rows c).length)).sum := by
  obtain ⟨out, hout, hranges⟩ :=
    batchUpdateLoop_ranges headers (headers :: rows) sheetName colVal conditions []
  have hranges2 : out.map (fun e => e.range)
      = conditions.flatMap (fun c =>
          (exactMatchRows headers rows c).map (fun j => rowRange sheetName (j + 1))) := by
    rw [hranges]
    simp only [List.map_nil, List.nil_append]
    congr 1
    funext c
    rw [getRowNumbersByCondition_eq headers rows c hnd]
  refine ⟨{ spreadsheetId := sheetId, valueInputOption := js "RAW", data := out },
    by simp only [batchUpdateTable, List.getElem?_cons_zero, hout], hranges2, ?_⟩
  have hlen := congrArg List.length hranges2
  simp only [List.length_map] at hlen
  rw [hlen, List.length_flatMap]
  simp [Function.comp_def]

/-- Witness for C3 on the sheet `team`: the conditions `grp = "g"` and
`name = "B"` are planned independently and give three entries. -/
theorem batchUpdateTable_ranges_witness :
    ([some (js "name"), some (js "grp"), some (js "age")] : Row).Nodup
    ∧ ∃ request, batchUpdateTable (js "id") team (js "S") setAge
          [⟨js "grp", js "g"⟩, ⟨js "name", js "B"⟩] = .ok request
      ∧ request.data.map (fun e => e.range)
          = ([⟨js "grp", js "g"⟩, ⟨js "name", js "B"⟩] : List Condition).flatMap (fun c =>
              (exactMatchRows [some (js "name"), some (js "grp"), some (js "age")]
                [[some (js "A"), some (js "g"), some (js "30")],
                 [some (js "B"), some (js "g"), some (js "25")]] c).map
                (fun j => rowRange (js "S") (j + 1)))
      ∧ request.data.length
          = (([⟨js "grp", js "g"⟩, ⟨js "name", js "B"⟩] : List Condition).map (fun c =>
              (exactMatchRows [some (js "name"), some (js "grp"), some (js "age")]
                [[some (js "A"), some (js "g"), some (js "30")],
                 [some (js "B"), some (js "g"), some (js "25")]] c).length)).sum :=
  ⟨by decide,
   batchUpdateTable_ranges (js "id") [some (js "name"), some (js "grp"), some (js "age")]
     [[some (js "A"), some (js "g"), some (js "30")],
      [some (js "B"), some (js "g"), some (js "25")]]
     (js "S") setAge [⟨js "grp", js "g"⟩, ⟨js "name", js "B"⟩] (by decide)⟩

/-! ## Insert: rows built from records -/

theorem length_arraySet {α : Type} {a : List (Option α)} {i : Nat} (v : Option α)
    (h : a.length ≤ i) : (arraySet a i v).length = i + 1 := by
  unfold arraySet
  rw [if_neg (by omega)]
  simp
  omega

theorem cellAt_arraySet {α : Type} {a : List (Option α)} {i : Nat} (v : Option α)
    (h : a.length ≤ i) (k : Nat) :
    cellAt (arraySet a i v) k = if k = i then v else cellAt a k := by
  unfold arraySet cellAt
  rw [if_neg (by omega)]
  by_cases hk : k < a.length
  · have hne : k ≠ i := by omega
    rw [if_neg hne, List.append_assoc, List.getElem?_append_left hk]
  · by_cases hki : k = i
    · subst hki
      rw [if_pos rfl, List.getElem?_append_right (by simp; omega)]
      have h0 : k - (a ++ List.replicate (k - a.length) none).length = 0 := by
        simp
        omega
      rw [h0]
      rfl
    · rw [if_neg hki, List.getElem?_eq_none (by omega : a.length ≤ k)]
      by_cases hlt : k < i
      · rw [List.append_assoc, List.getElem?_append_right (by omega),
          List.getElem?_append_left (by simp; omega)]
        simp [List.getElem?_replicate]
      · rw [List.getElem?_eq_none (by simp; omega)]

theorem cellAt_of_length_le {α : Type} {a : List (Option α)} {k : Nat}
    (h : a.length ≤ k) : cellAt a k = none := by
  simp [cellAt, List.getElem?_eq_none h]

theorem cellAt_objectToArrayByHeadersLoop (toInsert : JSObject) :
    ∀ (rest : List Cell) (i : Nat) (values : RequestRow), values.length ≤ i → ∀ k,
      cellAt (objectToArrayByHeadersLoop toInsert rest i values) k
        = if k < i then cellAt values k
          else match rest[k - i]? with
            | some h =>
              if truthy (getProperty toInsert (propertyKey h))
              then getProperty toInsert (propertyKey h) else none
            | none => none := by
  intro rest
  induction rest with
  | nil =>
    intro i values hlen k
    by_cases hk : k < i
    · simp [objectToArrayByHeadersLoop, hk]
    · simp [objectToArrayByHeadersLoop, hk, cellAt_of_length_le (by omega : values.length ≤ k)]
  | cons h rest ih =>
    intro i values hlen k
    rw [objectToArrayByHeadersLoop]
    by_cases ht : truthy (getProperty toInsert (propertyKey h)) = true
    · simp only [ht, if_true]
      rw [ih (i + 1) _ (by rw [length_arraySet _ hlen]) k, cellAt_arraySet _ hlen]
      by_cases hk : k < i
      · have h1 : k < i + 1 := by omega
        have h2 : k ≠ i := by omega
        simp [hk, h1, h2]
      · by_cases hki : k = i
        · subst hki
          simp [ht]
        · have h1 : ¬ k < i + 1 := by omega
          have h3 : k - i = (k - (i + 1)) + 1 := by omega
          simp [hk, h1, h3]
    · have ht2 : truthy (getProperty toInsert (propertyKey h)) = false := by simpa using ht
      simp only [ht2, Bool.false_eq_true, if_false]
      rw [ih (i + 1) _ (by omega) k]
      by_cases hk : k < i
      · have h1 : k < i + 1 := by omega
        simp [hk, h1]
      · by_cases hki : k = i
        · subst hki
          simp [ht2, cellAt_of_length_le hlen]
        · have h1 : ¬ k < i + 1 := by omega
          have h3 : k - i = (k - (i + 1)) + 1 := by omega
          simp [hk, h1, h3]

/-- Cell `i` of the row built by `objectToArrayByHeaders`: what the record
yields under the key of header `i` when that is truthy, nothing otherwise and
nothing past the headers. -/
theorem cellAt_objectToArrayByHeaders (headers : Row) (toInsert : JSObject) (i : Nat) :
    cellAt (objectToArrayByHeaders headers toInsert) i
      = match headers[i]? with
        | some h =>
          if truthy (getProperty toInsert (propertyKey h))
          then getProperty toInsert (propertyKey h) else none
        | none => none := by
  have := cellAt_objectToArrayByHeadersLoop toInsert headers 0 [] (by simp) i
  simpa [objectToArrayByHeaders] using this

/-- C4 as stated fails: for the record `{name: "", age: "5"}` the cell of column
`name` is left absent although the record has a value under that key. -/
theorem insertIntoTableColValues_not_every_value :
    ¬ ∀ (sheetId : JSString) (headers : Row) (sheetName : JSString)
        (toInsert : List JSObject) (k i : Nat) (record : JSObject) (h : Cell)
        (v : PropertyValue),
        toInsert[k]? = some record → headers[i]? = some h →
        getProperty record (propertyKey h) = some v →
        ((insertIntoTableColValues sheetId headers sheetName toInsert).values[k]?).bind
          (fun row => cellAt row i) = some v := by
  intro hall
  have h1 := hall (js "id") [some (js "name"), some (js "age")] (js "S") [blankName] 0 0
    blankName (some (js "name")) (.string []) rfl (by decide) (by decide)
  revert h1
  decide

/-- C4 (amended): one row per record, in record order. In each row cell `i` is
`record[headers[i]]` whenever that value is not the empty string: the
record's own non-empty string, or, for a name the record does not hold itself,
the object it inherits from `Object.prototype` under a name such as
`constructor`. Cell `i` is absent whenever the record holds the empty string
under the key or has no such property, own or inherited; no cell lies past
the headers. -/
theorem insertIntoTableColValues_rows (sheetId : JSString) (headers : Row)
    (sheetName : JSString) (toInsert : List JSObject) :
    (insertIntoTableColValues sheetId headers sheetName toInsert).values.length
      = toInsert.length
    ∧ ∀ (k : Nat) (record : JSObject), toInsert[k]? = some record →
        ∃ row, (insertIntoTableColValues sheetId headers sheetName toInsert).values[k]?
            = some row
          ∧ (∀ (i : Nat) (h : Cell), headers[i]? = some h →
              (∀ v, getProperty record (propertyKey h) = some v → v ≠ .string [] →
                cellAt row i = some v)
              ∧ (getProperty record (propertyKey h) = none
                  ∨ getProperty record (propertyKey h) = some (.string []) →
                cellAt row i = none)
              ∧ (∀ s, record (propertyKey h) = some s → s ≠ [] →
                cellAt row i = some (.string s))
              ∧ (record (propertyKey h) = some [] → cellAt row i = none)
              ∧ (record (propertyKey h) = none → propertyKey h ∈ objectPrototypeKeys →
                cellAt row i = some (.inherited (propertyKey h)))
              ∧ (record (propertyKey h) = none → propertyKey h ∉ objectPrototypeKeys →
                cellAt row i = none))
          ∧ ∀ i, headers.length ≤ i → cellAt row i = none := by
  refine ⟨by simp [insertIntoTableColValues], fun k record hk => ?_⟩
  refine ⟨objectToArrayByHeaders headers record, by simp [insertIntoTableColValues, hk],
    fun i h hi => ⟨fun v hv hne => ?_, fun hnone => ?_, fun s hs hne => ?_, fun hs => ?_,
      fun hs hmem => ?_, fun hs hmem => ?_⟩, fun i hi => ?_⟩
  · rw [cellAt_objectToArrayByHeaders, hi]
    cases v with
    | inherited key => simp [hv, truthy]
    | string s =>
      cases s with
      | nil => exact absurd rfl hne
      | cons a t => simp [hv, truthy]
  · rw [cellAt_objectToArrayByHeaders, hi]
    rcases hnone with h0 | h0 <;> simp [h0, truthy]
  · rw [cellAt_objectToArrayByHeaders, hi]
    cases s with
    | nil => exact absurd rfl hne
    | cons a t => simp [getProperty, hs, truthy]
  · rw [cellAt_objectToArrayByHeaders, hi]
    simp [getProperty, hs, truthy]
  · rw [cellAt_objectToArrayByHeaders, hi]
    simp [getProperty, hs, hmem, truthy]
  · rw [cellAt_objectToArrayByHeaders, hi]
    simp [getProperty, hs, hmem, truthy]
  · rw [cellAt_objectToArrayByHeaders, List.getElem?_eq_none hi]

/-- Witness for C4 (amended): for the headers `constructor`, `name`, `age` the
record `{name: "", age: "5"}` gives the row whose first cell is the inherited
`constructor`, whose `name` cell is absent and whose `age` cell is `"5"`. -/
theorem insertIntoTableColValues_rows_witness :
    (insertIntoTableColValues (js "id")
        [some (js "constructor"), some (js "name"), some (js "age")]
        (js "S") [blankName]).values
      = [[some (.inherited (js "constructor")), none, some (.string (js "5"))]]
    ∧ ∃ row, (insertIntoTableColValues (js "id")
            [some (js "constructor"), some (js "name"), some (js "age")]
            (js "S") [blankName]).values[0]? = some row
          ∧ (∀ (i : Nat) (h : Cell),
              ([some (js "constructor"), some (js "name"), some (js "age")] : Row)[i]?
                = some h →
              (∀ v, getProperty blankName (propertyKey h) = some v → v ≠ .string [] →
                cellAt row i = some v)
              ∧ (getProperty blankName (propertyKey h) = none
                  ∨ getProperty blankName (propertyKey h) = some (.string []) →
                cellAt row i = none)
              ∧ (∀ s, blankName (propertyKey h) = some s → s ≠ [] →
                cellAt row i = some (.string s))
              ∧ (blankName (propertyKey h) = some [] → cellAt row i = none)
              ∧ (blankName (propertyKey h) = none → propertyKey h ∈ objectPrototypeKeys →
                cellAt row i = some (.inherited (propertyKey h)))
              ∧ (blankName (propertyKey h) = none → propertyKey h ∉ objectPrototypeKeys →
                cellAt row i = none))
          ∧ ∀ i, ([some (js "constructor"), some (js "name"), some (js "age")] : Row).length
              ≤ i → cellAt row i = none :=
  ⟨by decide,
   (insertIntoTableColValues_rows (js "id")
      [some (js "constructor"), some (js "name"), some (js "age")] (js "S")
      [blankName]).2 0 blankName rfl⟩

/-! ## Select: the splice loop as a filter -/

theorem shouldStay_of_cell {row : Row} {keyword s : JSString} {c : Nat}
    (h : cellAt row c = some s) :
    shouldStay row keyword (c : Int) = .ok (includes s keyword) := by
  have hneg : ¬ ((c : Int) < 0) := by omega
  simp [shouldStay, hneg, h]

/-- C19: on an array whose rows all have a defined cell at column `c`, the
splice-while-iterating loop of `filterByKeyword` ends within its iteration
budget, throws nothing, and returns exactly the rows whose cell at `c`
includes the keyword, in their original order. -/
theorem filterByKeyword_refines_filter (values : Grid) (keyword : JSString) (c : Nat)
    (hdef : ∀ row ∈ values, cellAt row c ≠ none) :
    filterByKeyword values keyword (c : Int) = .ok (rowsIncluding values keyword c) := by
  unfold rowsIncluding
  apply filterByKeyword_eq_filter
  intro row hrow
  obtain ⟨s, hs⟩ := Option.ne_none_iff_exists'.mp (hdef row hrow)
  rw [shouldStay_of_cell hs, hs]

/-- Witness for C19 on the sheet `people`, column 0 and keyword `"o"`. -/
theorem filterByKeyword_refines_filter_witness :
    filterByKeyword people (js "o") ((0 : Nat) : Int) = .ok (rowsIncluding people (js "o") 0)
    ∧ rowsIncluding people (js "o") 0 = [[some (js "Bob"), some (js "25")]] :=
  ⟨filterByKeyword_refines_filter people (js "o") 0 (by decide), by decide⟩

/-! ## Select: filtering never adds rows -/

theorem filterByKeywordLoop_sublist (keyword : JSString) (columnIndex : Int) :
    ∀ (fuel : Nat) (values : Grid) (rows i : Nat) (out : Grid),
      filterByKeywordLoop keyword columnIndex fuel values rows i = .ok out →
      out.Sublist values := by
  intro fuel
  induction fuel with
  | zero =>
    intro values rows i out h
    simp only [filterByKeywordLoop] at h
    split at h
    · cases h
    · cases h
      exact List.Sublist.refl _
  | succ fuel ih =>
    intro values rows i out h
    rw [filterByKeywordLoop] at h
    split at h
    · split at h
      · cases h
      · split at h
        · cases h
        · exact ih _ _ _ _ h
        · exact (ih _ _ _ _ h).trans (List.eraseIdx_sublist _ _)
    · cases h
      exact List.Sublist.refl _

theorem filterByConditions_sublist :
    ∀ (conditions : List Condition) (values out : Grid),
      filterByConditions values conditions = .ok out → out.Sublist values := by
  intro conditions
  induction conditions with
  | nil =>
    intro values out h
    simp only [filterByConditions] at h
    cases h
    exact List.Sublist.refl _
  | cons c cs ih =>
    intro values out h
    rw [filterByConditions] at h
    split at h
    · cases h
    · split at h
      · cases h
      · next values1 hk =>
        exact (ih _ _ h).trans (filterByKeywordLoop_sublist _ _ _ _ _ _ _ hk)

/-- C13: whenever the call with the conditions `C` returns, the call with no
condition on the same grid and projection returns too, and the filtered
result has at most as many rows. -/
theorem selectFromTableWhereConditions_rows_le (values : Grid) (returnCols : ReturnCols)
    (conditions : List Condition) (result : Grid)
    (h : selectFromTableWhereConditions values returnCols conditions = .ok result) :
    ∃ unfiltered, selectFromTableWhereConditions values returnCols [] = .ok unfiltered
      ∧ result.length ≤ unfiltered.length := by
  unfold selectFromTableWhereConditions at h ⊢
  cases hv : values[0]? with
  | none => simp [hv] at h
  | some headers =>
    simp only [hv] at h ⊢
    cases hf : filterByConditions values conditions with
    | error e => simp [hf] at h
    | ok kept =>
      simp only [hf, Except.ok.injEq] at h
      subst h
      refine ⟨projectRow (colIndexOf headers returnCols) headers ::
        values.map (projectRow (colIndexOf headers returnCols)),
        by simp only [filterByConditions], ?_⟩
      have := (filterByConditions_sublist _ _ _ hf).length_le
      simpa using this

/-- Witness for C13 on the sheet `people` with the wildcard string and the
condition `age` contains `"25"`. -/
theorem selectFromTableWhereConditions_rows_le_witness :
    selectFromTableWhereConditions people (.string (js "*")) [⟨js "age", js "25"⟩]
      = .ok [[], []]
    ∧ ∃ unfiltered, selectFromTableWhereConditions people (.string (js "*")) []
        = .ok unfiltered ∧ ([[], []] : Grid).length ≤ unfiltered.length :=
  ⟨by decide,
   selectFromTableWhereConditions_rows_le people (.string (js "*"))
     [⟨js "age", js "25"⟩] [[], []] (by decide)⟩

/-! ## Update: the merge of one row -/

theorem getElem?_fillRowValuesFrom {α : Type} (values : List (Option α)) :
    ∀ (rowValues : List (Option α)) (i k : Nat),
      (fillRowValuesFrom values i rowValues)[k]?
        = (rowValues[k]?).map (fun c =>
            match c with
            | none => cellAt values (i + k)
            | some s => some s) := by
  intro rowValues
  induction rowValues with
  | nil => intro i k; simp [fillRowValuesFrom]
  | cons c rest ih =>
    intro i k
    cases c with
    | none =>
      cases k with
      | zero => simp [fillRowValuesFrom]
      | succ k =>
        simp only [fillRowValuesFrom, List.getElem?_cons_succ, ih]
        have : i + 1 + k = i + (k + 1) := by omega
        rw [this]
    | some s =>
      cases k with
      | zero => simp [fillRowValuesFrom]
      | succ k =>
        simp only [fillRowValuesFrom, List.getElem?_cons_succ, ih]
        have : i + 1 + k = i + (k + 1) := by omega
        rw [this]

/-- C14: filling a fresh copy of `cv` from the row that a first fill of `cv`
from `r` produced gives that same row again, whatever the elements of the
rows are (cells of the sheet or values of a request). -/
theorem fillRowValues_idempotent {α : Type} (cv r : List (Option α)) :
    fillRowValues cv (fillRowValues cv r) = fillRowValues cv r := by
  apply List.ext_getElem?
  intro k
  unfold fillRowValues
  rw [getElem?_fillRowValuesFrom, getElem?_fillRowValuesFrom]
  cases hk : cv[k]? with
  | none => rfl
  | some c =>
    cases c with
    | some s => rfl
    | none =>
      simp only [Option.map_some', Nat.zero_add, Option.some.injEq]
      unfold cellAt
      rw [getElem?_fillRowValuesFrom, hk]
      simp [cellAt]

/-! ## Select: the empty keyword -/

theorem includes_nil (s : JSString) : includes s [] = true := by
  cases s <;> simp [includes, List.tails]

theorem firstIndexOf_lt_length {name : JSString} :
    ∀ {row : Row} {j : Nat}, firstIndexOf name row = some j → j < row.length := by
  intro row
  induction row with
  | nil => intro j h; simp [firstIndexOf] at h
  | cons c rest ih =>
    intro j h
    by_cases hc : c = some name
    · simp [firstIndexOf, hc] at h
      subst h
      simp
    · simp only [firstIndexOf, hc, if_false, Option.map_eq_some'] at h
      obtain ⟨k, hk, rfl⟩ := h
      have := ih hk
      simp
      omega

theorem cellAt_ne_none_of_rectangular {headers : Row} {rows : List Row}
    (hrect : isRectangular headers rows = true) {row : Row} (hrow : row ∈ headers :: rows)
    {j : Nat} (hj : j < headers.length) : cellAt row j ≠ none := by
  simp only [isRectangular, List.all_eq_true, Bool.and_eq_true, beq_iff_eq] at hrect
  obtain ⟨hlen, hall⟩ := hrect row hrow
  have hlt : j < row.length := by omega
  have hsome := hall row[j] (List.getElem_mem hlt)
  unfold cellAt
  rw [List.getElem?_eq_getElem hlt]
  cases hc : row[j] with
  | none => simp [hc] at hsome
  | some s => simp

/-- C15: on a grid of strings whose rows all have the header's length, a
condition on an existing column with the empty string as value keeps every
row: the call returns what it returns with no condition at all. -/
theorem selectFromTableWhereConditions_empty_value (headers : Row) (rows : List Row)
    (returnCols : ReturnCols) (c : Condition)
    (hrect : isRectangular headers rows = true) (hcol : some c.header ∈ headers)
    (hval : c.value = []) :
    selectFromTableWhereConditions (headers :: rows) returnCols [c]
      = selectFromTableWhereConditions (headers :: rows) returnCols [] := by
  obtain ⟨j, hj⟩ := Option.ne_none_iff_exists'.mp
    (fun h => (firstIndexOf_eq_none.mp h) hcol)
  have hidx : headerIndexOf headers c.header = (j : Int) := by simp [headerIndexOf, hj]
  have hf : filterByKeyword (headers :: rows) c.value (j : Int)
      = .ok ((headers :: rows).filter (fun _ => true)) := by
    apply filterByKeyword_eq_filter
    intro row hrow
    obtain ⟨s, hs⟩ := Option.ne_none_iff_exists'.mp
      (cellAt_ne_none_of_rectangular hrect hrow (firstIndexOf_lt_length hj))
    rw [shouldStay_of_cell hs, hval, includes_nil]
  simp only [selectFromTableWhereConditions, filterByConditions, List.getElem?_cons_zero,
    hidx, hf, List.filter_true]

/-- Witness for C15 on the sheet `people` with the condition `age` contains `""`. -/
theorem selectFromTableWhereConditions_empty_value_witness :
    isRectangular [some (js "name"), some (js "age")]
        [[some (js "Alice"), some (js "30")], [some (js "Bob"), some (js "25")]] = true
    ∧ selectFromTableWhereConditions
        ([some (js "name"), some (js "age")] ::
          [[some (js "Alice"), some (js "30")], [some (js "Bob"), some (js "25")]])
        (.array [js "name"]) [⟨js "age", []⟩]
      = selectFromTableWhereConditions
        ([some (js "name"), some (js "age")] ::
          [[some (js "Alice"), some (js "30")], [some (js "Bob"), some (js "25")]])
        (.array [js "name"]) [] :=
  ⟨by decide,
   selectFromTableWhereConditions_empty_value [some (js "name"), some (js "age")]
     [[some (js "Alice"), some (js "30")], [some (js "Bob"), some (js "25")]]
     (.array [js "name"]) ⟨js "age", []⟩ (by decide) (by decide) rfl⟩

/-! ## Column notation -/

theorem getNotationFromColNameLoop_eq (colName : JSString) :
    ∀ (headers : Row) (i : Nat),
      getNotationFromColNameLoop colName headers i
        = (firstIndexOf colName headers).map (fun j => getCharFromNum ((i + j : Nat) : Int)) := by
  intro headers
  induction headers with
  | nil => intro i; simp [getNotationFromColNameLoop, firstIndexOf]
  | cons c rest ih =>
    intro i
    by_cases hc : c = some colName
    · simp [getNotationFromColNameLoop, firstIndexOf, hc]
    · simp only [getNotationFromColNameLoop, firstIndexOf, hc, if_false, ih, Option.map_map]
      congr 1
      funext j
      simp only [Function.comp_apply]
      congr 2
      omega

theorem firstIndexOf_of_first {name : JSString} :
    ∀ {row : Row} {i : Nat}, row[i]? = some (some name) →
      (∀ j, j < i → row[j]? ≠ some (some name)) → firstIndexOf name row = some i := by
  intro row
  induction row with
  | nil => intro i h _; simp at h
  | cons c rest ih =>
    intro i h hmin
    by_cases hc : c = some name
    · cases i with
      | zero => simp [firstIndexOf, hc]
      | succ i => exact absurd (by simp [hc]) (hmin 0 (by omega))
    · cases i with
      | zero =>
        simp only [List.getElem?_cons_zero, Option.some.injEq] at h
        exact absurd h hc
      | succ i =>
        simp only [List.getElem?_cons_succ] at h
        have hrest := ih h (fun j hj => by
          have := hmin (j + 1) (by omega)
          simpa using this)
        simp [firstIndexOf, hc, hrest]

/-- C17: the result is `null` exactly when the name is not among the headers,
and otherwise it is `getCharFromNum(i)` for the smallest index `i` whose
header is the name. -/
theorem getNotationFromColName_spec (headers : Row) (colName : JSString) :
    (getNotationFromColName headers colName = none ↔ some colName ∉ headers)
    ∧ ∀ i : Nat, headers[i]? = some (some colName) →
        (∀ j : Nat, j < i → headers[j]? ≠ some (some colName)) →
        getNotationFromColName headers colName = some (getCharFromNum (i : Int)) := by
  refine ⟨?_, fun i hi hmin => ?_⟩
  · rw [getNotationFromColName, getNotationFromColNameLoop_eq, Option.map_eq_none',
      firstIndexOf_eq_none]
  · rw [getNotationFromColName, getNotationFromColNameLoop_eq,
      firstIndexOf_of_first hi hmin]
    simp

/-- Witness for C17: in the headers `name`, `age`, `name` the name `age` is at
index 1 and gets the letter `B`, and `city` is not found. -/
theorem getNotationFromColName_spec_witness :
    getNotationFromColName [some (js "name"), some (js "age"), some (js "name")] (js "age")
      = some (getCharFromNum ((1 : Nat) : Int))
    ∧ (getNotationFromColName [some (js "name"), some (js "age"), some (js "name")]
        (js "city") = none
      ↔ some (js "city") ∉ ([some (js "name"), some (js "age"), some (js "name")] : Row)) :=
  ⟨(getNotationFromColName_spec [some (js "name"), some (js "age"), some (js "name")]
      (js "age")).2 1 (by decide) (by decide),
   (getNotationFromColName_spec [some (js "name"), some (js "age"), some (js "name")]
      (js "city")).1⟩

/-! ## New columns -/

theorem getCharFromNum_of_le (p : Nat) (hp : p ≤ 25) :
    getCharFromNum (p : Int) = [65 + p] := by
  simp only [getCharFromNum, fromCharCode, List.cons.injEq, and_true]
  omega

/-- C18: for `h` existing columns and `n ≥ 1` new names with `h + n ≤ 26` the
request addresses `sheetName!X1:Y1`, `X` the letter of position `h` and `Y`
the letter of position `h + n - 1` (both between `A` and `Z`, `n` columns
apart inclusive), and carries the names as one row in their order. -/
theorem alterTableAddCol_range (sheetId sheetName : JSString) (colNames : Row) (h : Nat)
    (hne : colNames ≠ []) (hle : h + colNames.length ≤ 26) :
    (alterTableAddCol sheetId sheetName colNames (h : Int)).range
        = sheetName ++ js "!" ++ getCharFromNum (h : Int) ++ js "1:"
            ++ getCharFromNum ((h + colNames.length - 1 : Nat) : Int) ++ js "1"
    ∧ getCharFromNum (h : Int) = [65 + h]
    ∧ getCharFromNum ((h + colNames.length - 1 : Nat) : Int) = [65 + h + colNames.length - 1]
    ∧ 65 + h + colNames.length - 1 ≤ 90
    ∧ (65 + h + colNames.length - 1) - (65 + h) + 1 = colNames.length
    ∧ (alterTableAddCol sheetId sheetName colNames (h : Int)).values = [colNames] := by
  have hpos : 0 < colNames.length := List.length_pos.mpr hne
  have hcast : (h : Int) + (colNames.length : Int) - 1
      = ((h + colNames.length - 1 : Nat) : Int) := by omega
  refine ⟨?_, getCharFromNum_of_le h (by omega), ?_, by omega, by omega, rfl⟩
  · simp only [alterTableAddCol, hcast]
  · rw [getCharFromNum_of_le _ (by omega)]
    congr 1
    omega

/-- Witness for C18: two new columns after three existing ones go to `S!D1:E1`. -/
theorem alterTableAddCol_range_witness :
    (alterTableAddCol (js "id") (js "S") [some (js "x"), some (js "y")] ((3 : Nat) : Int)).range
        = js "S" ++ js "!" ++ getCharFromNum ((3 : Nat) : Int) ++ js "1:"
            ++ getCharFromNum ((3 + ([some (js "x"), some (js "y")] : Row).length - 1 : Nat) : Int)
            ++ js "1"
    ∧ (alterTableAddCol (js "id") (js "S") [some (js "x"), some (js "y")] ((3 : Nat) : Int)).range
        = js "S!D1:E1" :=
  ⟨(alterTableAddCol_range (js "id") (js "S") [some (js "x"), some (js "y")] 3
      (by decide) (by decide)).1, by decide⟩

/-! ## Update: the planned row numbers -/

theorem getRowNumbersByCondition_bounds (headers : Row) (values : Grid) (c : Condition) :
    ∀ n ∈ getRowNumbersByCondition headers values c, 1 ≤ n ∧ n < values.length := by
  intro n hn
  simp only [getRowNumbersByCondition, List.mem_flatMap] at hn
  obtain ⟨i, _, hi⟩ := hn
  split at hi
  · simp only [List.mem_filter, List.mem_range'_1] at hi
    omega
  · simp at hi

/-- C20: every entry of a plan that `batchUpdateTable` returns addresses a row
`n` with `2 ≤ n ≤` the number of rows of the grid, never the header row and
never a row past the end; and on a grid that has a header row the call
returns. -/
theorem batchUpdateTable_row_numbers (sheetId : JSString) (sheetValues : Grid)
    (sheetName : JSString) (colVal : JSObject) (conditions : List Condition) :
    (∀ request, batchUpdateTable sheetId sheetValues sheetName colVal conditions
        = .ok request →
      ∀ e ∈ request.data, ∃ n, 2 ≤ n ∧ n ≤ sheetValues.length
        ∧ e.range = rowRange sheetName n)
    ∧ (sheetValues ≠ [] →
      ∃ request, batchUpdateTable sheetId sheetValues sheetName colVal conditions
        = .ok request) := by
  cases sheetValues with
  | nil =>
    refine ⟨fun request h e he => ?_, fun h => absurd rfl h⟩
    cases conditions with
    | nil =>
      simp only [batchUpdateTable, batchUpdateLoop, Except.ok.injEq] at h
      subst h
      simp at he
    | cons c cs => simp [batchUpdateTable, batchUpdateLoop] at h
  | cons headers rows =>
    obtain ⟨out, hout, hranges⟩ :=
      batchUpdateLoop_ranges headers (headers :: rows) sheetName colVal conditions []
    have hcall : batchUpdateTable sheetId (headers :: rows) sheetName colVal conditions
        = .ok { spreadsheetId := sheetId, valueInputOption := js "RAW", data := out } := by
      simp only [batchUpdateTable, List.getElem?_cons_zero, hout]
    refine ⟨fun request h e he => ?_, fun _ => ⟨_, hcall⟩⟩
    rw [hcall] at h
    simp only [Except.ok.injEq] at h
    subst h
    have hmem : e.range ∈ out.map (fun e => e.range) := List.mem_map_of_mem _ he
    rw [hranges] at hmem
    simp only [List.map_nil, List.nil_append, List.mem_flatMap, List.mem_map] at hmem
    obtain ⟨c, _, n, hn, hrange⟩ := hmem
    have hb := getRowNumbersByCondition_bounds headers (headers :: rows) c n hn
    exact ⟨n + 1, by omega, by omega, hrange.symm⟩

/-- Witness for C20: on the sheet `team` the condition `name = "name"`, whose
value is a header cell, plans nothing, and the two entries planned for
`grp = "g"` address rows within 2 and 3. -/
theorem batchUpdateTable_row_numbers_witness :
    batchUpdateTable (js "id") team (js "S") setAge [⟨js "name", js "name"⟩]
      = .ok { spreadsheetId := js "id", valueInputOption := js "RAW", data := [] }
    ∧ ∀ e ∈ ([{ range := js "S!2:2", majorDimension := js "ROWS"
                values := [toRequestRow [some (js "A"), some (js "g"), some (js "9")]] },
              { range := js "S!3:3", majorDimension := js "ROWS"
                values := [toRequestRow [some (js "A"), some (js "g"), some (js "9")]] }] : List ValueRange),
        ∃ n, 2 ≤ n ∧ n ≤ team.length ∧ e.range = rowRange (js "S") n :=
  ⟨by decide,
   (batchUpdateTable_row_numbers (js "id") team (js "S") setAge [⟨js "grp", js "g"⟩]).1
     { spreadsheetId := js "id"
       valueInputOption := js "RAW"
       data :=
         [{ range := js "S!2:2", majorDimension := js "ROWS"
            values := [toRequestRow [some (js "A"), some (js "g"), some (js "9")]] },
          { range := js "S!3:3", majorDimension := js "ROWS"
            values := [toRequestRow [some (js "A"), some (js "g"), some (js "9")]] }] }
     (by decide)⟩

/-! ## Select: a condition that matches no data row, and the caller's array -/

/-- C11 (defect in the code): on the rectangular sheet `people` each condition
list below holds a condition on an existing column whose value is in no data
row cell of that column, so a header-only grid is due. Standing first, the
condition `age` contains `"99"` empties the array and the next condition
throws a `TypeError` at `values[0].length`; standing last, `age` contains `"B"`
is resolved against the first remaining data row, matches any column and
keeps Bob; standing alone, `age` contains `"a"` keeps the header row, whose
cell `"age"` includes `"a"`, as a data row. Same defect as C1. -/
theorem selectFromTableWhereConditions_no_match_not_header_only :
    isRectangular [some (js "name"), some (js "age")]
        [[some (js "Alice"), some (js "30")], [some (js "Bob"), some (js "25")]] = true
    ∧ (selectFromTableWhereConditions people (.array [js "name"])
          [⟨js "age", js "99"⟩, ⟨js "name", js "B"⟩] = .error .typeError
      ∧ rowsIncluding people.tail (js "99") 1 = []
      ∧ selectSpec people [js "name"] [⟨js "age", js "99"⟩, ⟨js "name", js "B"⟩]
          = [[some (js "name")]])
    ∧ (selectFromTableWhereConditions people (.array [js "name"])
          [⟨js "name", js "o"⟩, ⟨js "age", js "B"⟩]
        = .ok [[some (js "name")], [some (js "Bob")]]
      ∧ rowsIncluding people.tail (js "B") 1 = []
      ∧ selectSpec people [js "name"] [⟨js "name", js "o"⟩, ⟨js "age", js "B"⟩]
          = [[some (js "name")]])
    ∧ (selectFromTableWhereConditions people (.array [js "name"]) [⟨js "age", js "a"⟩]
        = .ok [[some (js "name")], [some (js "name")]]
      ∧ rowsIncluding people.tail (js "a") 1 = []
      ∧ selectSpec people [js "name"] [⟨js "age", js "a"⟩] = [[some (js "name")]]) := by
  refine ⟨?_, ⟨?_, ?_, ?_⟩, ⟨?_, ?_, ?_⟩, ?_, ?_, ?_⟩ <;> decide

/-- C12 (defect in the code): the call filters the caller's array in place. After
the call with the condition `age` contains `"25"` the array that held the
three rows of `people` holds the row of Bob alone, header row gone, so that a
second call on the same response takes Bob's row for the header row and
finds no column `name`; in general the rows of the result are read from the
caller's array as the filtering left it. -/
theorem selectFromTableWhereConditions_mutates_input :
    (responseValuesAfterSelect people [⟨js "age", js "25"⟩]
        = .ok [[some (js "Bob"), some (js "25")]]
      ∧ selectFromTableWhereConditions people (.array [js "name"]) [⟨js "age", js "25"⟩]
        = .ok [[some (js "name")], [some (js "Bob")]]
      ∧ selectFromTableWhereConditions [[some (js "Bob"), some (js "25")]]
          (.array [js "name"]) [] = .ok [[], []])
    ∧ ∀ (headers : Row) (rows : List Row) (returnCols : ReturnCols)
        (conditions : List Condition),
        selectFromTableWhereConditions (headers :: rows) returnCols conditions
          = (responseValuesAfterSelect (headers :: rows) conditions).map (fun after =>
              projectRow (colIndexOf headers returnCols) headers ::
                after.map (projectRow (colIndexOf headers returnCols))) := by
  refine ⟨⟨by decide, by decide, by decide⟩, fun headers rows returnCols conditions => ?_⟩
  simp only [selectFromTableWhereConditions, responseValuesAfterSelect,
    List.getElem?_cons_zero]
  cases filterByConditions (headers :: rows) conditions <;> rfl

/-! ## The reader behind `JSON.parse` stays within its budget -/

theorem skipWhitespace_length_le : ∀ l : List Nat, (skipWhitespace l).length ≤ l.length := by
  intro l
  induction l with
  | nil => simp [skipWhitespace]
  | cons u rest ih =>
    simp only [skipWhitespace]
    split
    · simp only [List.length_cons]; omega
    · simp

theorem parseStringChars_length_lt :
    ∀ (n : Nat) (input : List Nat) (s : JSString) (rest : List Nat), input.length ≤ n →
      parseStringChars input = some (s, rest) → rest.length < input.length := by
  intro n
  induction n with
  | zero =>
    intro input s rest hn h
    cases input with
    | nil => simp [parseStringChars] at h
    | cons u r => simp at hn
  | succ n ih =>
    intro input s rest hn h
    cases input with
    | nil => simp [parseStringChars] at h
    | cons u r =>
      simp only [List.length_cons] at hn
      rw [parseStringChars.eq_def] at h
      simp only at h
      split at h
      · simp only [Option.some.injEq, Prod.mk.injEq] at h
        obtain ⟨_, rfl⟩ := h
        simp
      · split at h
        · split at h
          · cases h
          · next e rest1 =>
            simp only [List.length_cons] at hn
            split at h
            · split at h
              · next a b c d rest2 =>
                simp only [List.length_cons] at hn
                split at h
                · simp only [Option.map_eq_some', Prod.mk.injEq] at h
                  obtain ⟨p, hp, _, rfl⟩ := h
                  have := ih rest2 p.1 p.2 (by omega) hp
                  simp only [List.length_cons]
                  omega
                · cases h
              · cases h
            · split at h
              · simp only [Option.map_eq_some', Prod.mk.injEq] at h
                obtain ⟨p, hp, _, rfl⟩ := h
                have := ih rest1 p.1 p.2 (by omega) hp
                simp only [List.length_cons]
                omega
              · cases h
        · split at h
          · cases h
          · simp only [Option.map_eq_some', Prod.mk.injEq] at h
            obtain ⟨p, hp, _, rfl⟩ := h
            have := ih r p.1 p.2 (by omega) hp
            simp only [List.length_cons]
            omega


theorem length_dropWhile_le (p : Nat → Bool) (l : List Nat) :
    (l.dropWhile p).length ≤ l.length :=
  (List.dropWhile_sublist p).length_le

theorem parseExponent_length_le (literal : JSString) (input : List Nat) (l rest : List Nat)
    (h : parseExponent literal input = some (l, rest)) : rest.length ≤ input.length := by
  unfold parseExponent at h
  split at h
  · next e r =>
    split at h
    · simp only at h
      split at h
      · cases h
      · simp only [Option.some.injEq, Prod.mk.injEq] at h
        obtain ⟨_, rfl⟩ := h
        have := length_dropWhile_le isDigit
          (List.drop (List.take 1 (List.takeWhile (fun u => decide (u = 43 ∨ u = 45)) r)).length r)
        simp only [List.length_drop, List.length_cons] at this ⊢
        omega
    · simp only [Option.some.injEq, Prod.mk.injEq] at h
      obtain ⟨_, rfl⟩ := h
      exact Nat.le_refl _
  · simp only [Option.some.injEq, Prod.mk.injEq] at h
    obtain ⟨_, rfl⟩ := h
    exact Nat.le_refl _

theorem parseFraction_length_le (literal : JSString) (input : List Nat) (l rest : List Nat)
    (h : parseFraction literal input = some (l, rest)) : rest.length ≤ input.length := by
  unfold parseFraction at h
  split at h
  · next p r =>
    split at h
    · simp only at h
      split at h
      · cases h
      · have h1 := parseExponent_length_le _ _ _ _ h
        have h2 := length_dropWhile_le isDigit r
        simp only [List.length_cons]
        omega
    · exact parseExponent_length_le _ _ _ _ h
  · simp only [Option.some.injEq, Prod.mk.injEq] at h
    obtain ⟨_, rfl⟩ := h
    exact Nat.le_refl _

theorem parseInteger_length_lt (literal : JSString) (input : List Nat) (l rest : List Nat)
    (h : parseInteger literal input = some (l, rest)) : rest.length < input.length := by
  unfold parseInteger at h
  split at h
  · next d r =>
    split at h
    · have := parseFraction_length_le _ _ _ _ h
      simp only [List.length_cons]
      omega
    · split at h
      · have h1 := parseFraction_length_le _ _ _ _ h
        have h2 := length_dropWhile_le isDigit r
        simp only [List.length_cons]
        omega
      · cases h
  · cases h

theorem parseNumber_length_lt (input : List Nat) (l rest : List Nat)
    (h : parseNumber input = some (l, rest)) : rest.length < input.length := by
  unfold parseNumber at h
  split at h
  · next u r =>
    split at h
    · have := parseInteger_length_lt _ _ _ _ h
      simp only [List.length_cons]
      omega
    · exact parseInteger_length_lt _ _ _ _ h
  · cases h


theorem parse_length_lt (fuel : Nat) :
    (∀ input v rest, parseValue fuel input = .ok (v, rest) → rest.length < input.length)
    ∧ (∀ input members v rest, parseMembers fuel input members = .ok (v, rest) →
        rest.length < input.length)
    ∧ (∀ input items v rest, parseItems fuel input items = .ok (v, rest) →
        rest.length < input.length) := by
  induction fuel with
  | zero =>
    refine ⟨?_, ?_, ?_⟩
    · intro input v rest h; simp [parseValue] at h
    · intro input members v rest h; simp [parseMembers] at h
    · intro input items v rest h; simp [parseItems] at h
  | succ fuel ih =>
    obtain ⟨ihV, ihM, ihI⟩ := ih
    refine ⟨?_, ?_, ?_⟩
    · intro input v rest h
      have hw := skipWhitespace_length_le input
      rw [parseValue] at h
      split at h
      · cases h
      · next u r hsk =>
        rw [hsk] at hw
        simp only [List.length_cons] at hw
        split at h
        · have hw2 := skipWhitespace_length_le r
          split at h
          · cases h
          · next c rest1 hsk2 =>
            rw [hsk2] at hw2
            simp only [List.length_cons] at hw2
            split at h
            · simp only [Except.ok.injEq, Prod.mk.injEq] at h
              obtain ⟨_, rfl⟩ := h
              omega
            · have := ihM _ _ _ _ h
              simp only [List.length_cons] at this
              omega
        · split at h
          · have hw2 := skipWhitespace_length_le r
            split at h
            · cases h
            · next c rest1 hsk2 =>
              rw [hsk2] at hw2
              simp only [List.length_cons] at hw2
              split at h
              · simp only [Except.ok.injEq, Prod.mk.injEq] at h
                obtain ⟨_, rfl⟩ := h
                omega
              · have := ihI _ _ _ _ h
                simp only [List.length_cons] at this
                omega
          · split at h
            · split at h
              · next s rest1 hs =>
                simp only [Except.ok.injEq, Prod.mk.injEq] at h
                obtain ⟨_, rfl⟩ := h
                have := parseStringChars_length_lt _ _ _ _ (Nat.le_refl _) hs
                omega
              · cases h
            · split at h
              · split at h
                · next literal rest1 hn =>
                  simp only [Except.ok.injEq, Prod.mk.injEq] at h
                  obtain ⟨_, rfl⟩ := h
                  have := parseNumber_length_lt _ _ _ hn
                  simp only [List.length_cons] at this
                  omega
                · cases h
              · split at h
                · simp only [Except.ok.injEq, Prod.mk.injEq] at h
                  obtain ⟨_, rfl⟩ := h
                  simp only [List.length_drop]
                  omega
                · split at h
                  · simp only [Except.ok.injEq, Prod.mk.injEq] at h
                    obtain ⟨_, rfl⟩ := h
                    simp only [List.length_drop]
                    omega
                  · split at h
                    · simp only [Except.ok.injEq, Prod.mk.injEq] at h
                      obtain ⟨_, rfl⟩ := h
                      simp only [List.length_drop]
                      omega
                    · cases h
    · intro input members v rest h
      have hw := skipWhitespace_length_le input
      rw [parseMembers] at h
      split at h
      · cases h
      · next q r hsk =>
        rw [hsk] at hw
        simp only [List.length_cons] at hw
        split at h
        · split at h
          · cases h
          · next key rest1 hs =>
            have h1 := parseStringChars_length_lt _ _ _ _ (Nat.le_refl _) hs
            have hw2 := skipWhitespace_length_le rest1
            split at h
            · cases h
            · next c rest2 hsk2 =>
              rw [hsk2] at hw2
              simp only [List.length_cons] at hw2
              split at h
              · split at h
                · cases h
                · next val rest3 hv =>
                  have h3 := ihV _ _ _ hv
                  have hw3 := skipWhitespace_length_le rest3
                  split at h
                  · cases h
                  · next d rest4 hsk3 =>
                    rw [hsk3] at hw3
                    simp only [List.length_cons] at hw3
                    split at h
                    · have := ihM _ _ _ _ h
                      omega
                    · split at h
                      · simp only [Except.ok.injEq, Prod.mk.injEq] at h
                        obtain ⟨_, rfl⟩ := h
                        omega
                      · cases h
              · cases h
        · cases h
    · intro input items v rest h
      rw [parseItems] at h
      split at h
      · cases h
      · next val rest0 hv =>
        have h0 := ihV _ _ _ hv
        have hw := skipWhitespace_length_le rest0
        split at h
        · cases h
        · next d rest1 hsk =>
          rw [hsk] at hw
          simp only [List.length_cons] at hw
          split at h
          · have := ihI _ _ _ _ h
            omega
          · split at h
            · simp only [Except.ok.injEq, Prod.mk.injEq] at h
              obtain ⟨_, rfl⟩ := h
              omega
            · cases h


theorem parse_fuel_enough (fuel : Nat) :
    (∀ input, 2 * input.length + 1 ≤ fuel → parseValue fuel input ≠ .error .outOfFuel)
    ∧ (∀ input members, 2 * input.length + 1 ≤ fuel →
        parseMembers fuel input members ≠ .error .outOfFuel)
    ∧ (∀ input items, 2 * input.length + 2 ≤ fuel →
        parseItems fuel input items ≠ .error .outOfFuel) := by
  induction fuel with
  | zero =>
    refine ⟨?_, ?_, ?_⟩
    · intro input hf; omega
    · intro input members hf; omega
    · intro input items hf; omega
  | succ fuel ih =>
    obtain ⟨ihV, ihM, ihI⟩ := ih
    refine ⟨?_, ?_, ?_⟩
    · intro input hf h
      have hw := skipWhitespace_length_le input
      rw [parseValue] at h
      split at h
      · cases h
      · next u r hsk =>
        rw [hsk] at hw
        simp only [List.length_cons] at hw
        split at h
        · have hw2 := skipWhitespace_length_le r
          split at h
          · cases h
          · next c rest1 hsk2 =>
            rw [hsk2] at hw2
            simp only [List.length_cons] at hw2
            split at h
            · cases h
            · exact ihM _ _ (by simp only [List.length_cons]; omega) h
        · split at h
          · have hw2 := skipWhitespace_length_le r
            split at h
            · cases h
            · next c rest1 hsk2 =>
              rw [hsk2] at hw2
              simp only [List.length_cons] at hw2
              split at h
              · cases h
              · exact ihI _ _ (by simp only [List.length_cons]; omega) h
          · split at h
            · split at h <;> cases h
            · split at h
              · split at h <;> cases h
              · split at h
                · cases h
                · split at h
                  · cases h
                  · split at h <;> cases h
    · intro input members hf h
      have hw := skipWhitespace_length_le input
      rw [parseMembers] at h
      split at h
      · cases h
      · next q r hsk =>
        rw [hsk] at hw
        simp only [List.length_cons] at hw
        split at h
        · split at h
          · cases h
          · next key rest1 hs =>
            have h1 := parseStringChars_length_lt _ _ _ _ (Nat.le_refl _) hs
            have hw2 := skipWhitespace_length_le rest1
            split at h
            · cases h
            · next c rest2 hsk2 =>
              rw [hsk2] at hw2
              simp only [List.length_cons] at hw2
              split at h
              · split at h
                · next e hv =>
                  simp only [Except.error.injEq] at h
                  subst h
                  exact ihV _ (by omega) hv
                · next val rest3 hv =>
                  have h3 := (parse_length_lt fuel).1 _ _ _ hv
                  have hw3 := skipWhitespace_length_le rest3
                  split at h
                  · cases h
                  · next d rest4 hsk3 =>
                    rw [hsk3] at hw3
                    simp only [List.length_cons] at hw3
                    split at h
                    · exact ihM _ _ (by omega) h
                    · split at h <;> cases h
              · cases h
        · cases h
    · intro input items hf h
      rw [parseItems] at h
      split at h
      · next e hv =>
        simp only [Except.error.injEq] at h
        subst h
        exact ihV _ (by omega) hv
      · next val rest0 hv =>
        have h0 := (parse_length_lt fuel).1 _ _ _ hv
        have hw := skipWhitespace_length_le rest0
        split at h
        · cases h
        · next d rest1 hsk =>
          rw [hsk] at hw
          simp only [List.length_cons] at hw
          split at h
          · exact ihI _ _ (by omega) h
          · split at h <;> cases h

/-- The budget of `jsonParse` is never used up: `JSON.parse` either returns a
value or throws a `SyntaxError`. -/
theorem jsonParse_ne_outOfFuel (text : JSString) : jsonParse text ≠ .error .outOfFuel := by
  intro h
  unfold jsonParse at h
  split at h
  · next e hv =>
    simp only [Except.error.injEq] at h
    subst h
    exact (parse_fuel_enough _).1 text (by omega) hv
  · split at h <;> cases h

theorem arrayToObjectsLoop_ne_outOfFuel (headers : Row) :
    ∀ rows : List Row, arrayToObjectsLoop headers rows ≠ .error .outOfFuel := by
  intro rows
  induction rows with
  | nil => simp [arrayToObjectsLoop]
  | cons row rest ih =>
    intro h
    rw [arrayToObjectsLoop] at h
    split at h
    · next e hp =>
      simp only [Except.error.injEq] at h
      subst h
      exact jsonParse_ne_outOfFuel _ hp
    · split at h
      · next e hl =>
        simp only [Except.error.injEq] at h
        subst h
        exact ih hl
      · cases h

/-! ## Records built through `JSON.parse` -/

/-- C16 (defect in the code): the text handed to `JSON.parse` is glued together
without escaping quotes and backslashes. For the header `h`, the cell `a"b`
(with a double quote) makes `JSON.parse` throw a `SyntaxError`, and the cell
of the four characters `a`, backslash, `n`, `b` comes back as the three
characters `a`, line feed, `b`; a sheet of plain cells gives the records
described. -/
theorem arrayToObjects_unescaped_cells :
    arrayToObjects [[some (js "h")], [some [97, 34, 98]]] = .error .syntaxError
    ∧ arrayToObjects [[some (js "h")], [some [97, 92, 110, 98]]]
        = .ok [.object [(js "h", .string [97, 10, 98])]]
    ∧ arrayToObjects [[some (js "name"), some (js "age")], [some (js "Bob"), some (js "25")]]
        = .ok [.object [(js "name", .string (js "Bob")), (js "age", .string (js "25"))]] :=
  ⟨rfl, rfl, rfl⟩

end SheetsApi
